import Mathlib

/-!
Verification of the Nachos MP3/MP4 file system (`code/filesys/filesys.cc`)
and multilevel-feedback scheduler (`code/threads/scheduler.cc`).

The file system layer is embedded as pure functions over an abstract typed
disk state (`FS`): the free-map file contents, the directory-file contents
indexed by header sector, and the file headers indexed by header sector.
The collaborators that are not part of the given sources (`Directory`,
`PersistentBitmap`, `FileHeader`, the `SortedList` container) are modelled
from the design document's contracts (sections 4.1 - 4.3, 4.5 and 6); the
definitions taken from `filesys.cc` and `scheduler.cc` themselves follow
those sources line by line.
-/

namespace Nachos

/-! ## Constants (disk.h / filesys.cc / directory.h) -/

/-- Sector holding the free-map file header (`FreeMapSector`, filesys.cc). -/
def FreeMapSector : Nat := 0

/-- Sector holding the root directory file header (`DirectorySector`, filesys.cc). -/
def DirectorySector : Nat := 1

/-- Modelled from the spec: sector size of the emulated disk (section 3, "typically 128 bytes"). -/
def SectorSize : Nat := 128

/-- Modelled from the spec: the fixed capacity of a directory table (section 6). -/
def NumDirEntries : Nat := 64

/-- Modelled from the spec: `DirectoryFileSize = NumDirEntries * entry_size` (section 6);
the entry size is a fixed per-entry byte count whose exact value none of the
claims depends on. -/
def DirectoryFileSize : Nat := NumDirEntries * 40

/-! ## Directory (modelled from the spec, sections 3 and 4.3)

A directory is a fixed-capacity table of entries
`⟨inUse, name, sector, isDir⟩`.  `Find` returns the header sector of the
first in-use entry carrying the name, `Add` claims the first free slot
(failing when the name is present or the table is full), `Remove` turns the
first matching entry's `inUse` flag off. -/

structure DirEntry where
  inUse : Bool
  name : String
  sector : Nat
  isDir : Bool
deriving DecidableEq, Repr

structure Directory where
  table : List DirEntry
deriving DecidableEq, Repr

/-- The entry-matching test of `Directory::FindIndex`: in use and name equal. -/
def findPred (name : String) (e : DirEntry) : Bool :=
  e.inUse && e.name == name

/-- Modelled from the spec: `Directory::FindIndex` scans for the first
in-use entry with the given name (section 4.3). -/
def Directory.findEntry (d : Directory) (name : String) : Option DirEntry :=
  d.table.find? (findPred name)

/-- Modelled from the spec: `Directory::Find(name) → Sector | −1`; `none` models `−1`. -/
def Directory.find? (d : Directory) (name : String) : Option Nat :=
  (d.findEntry name).map (·.sector)

/-- Modelled from the spec: `Directory::isDir(name)` reports the `isDir` flag
of the entry holding the name (section 4.3). -/
def Directory.isDirEntry (d : Directory) (name : String) : Bool :=
  ((d.findEntry name).map (·.isDir)).getD false

/-- Claim the first free slot of the table for the new entry; `none` when the
table is full. -/
def Directory.addAux (newE : DirEntry) : List DirEntry → Option (List DirEntry)
  | [] => none
  | e :: rest =>
    if e.inUse then (Directory.addAux newE rest).map (e :: ·)
    else some (newE :: rest)

/-- Modelled from the spec: `Directory::Add(name, sector, isDir) → bool` fails
if the name is already present or the table has no free slot (section 4.3). -/
def Directory.add (d : Directory) (name : String) (sector : Nat) (isDir : Bool) :
    Option Directory :=
  if (d.findEntry name).isSome then none
  else (Directory.addAux ⟨true, name, sector, isDir⟩ d.table).map Directory.mk

/-- Turn the `inUse` flag of the first in-use entry with the name off. -/
def Directory.removeAux (name : String) : List DirEntry → List DirEntry
  | [] => []
  | e :: rest =>
    if e.inUse && e.name == name then { e with inUse := false } :: rest
    else e :: Directory.removeAux name rest

/-- Modelled from the spec: `Directory::Remove(name)` clears the entry's
`inUse` flag (section 4.3); the table shape is otherwise untouched. -/
def Directory.removeName (d : Directory) (name : String) : Directory :=
  ⟨Directory.removeAux name d.table⟩

/-! ## Persistent bitmap (modelled from the spec, section 4.1) -/

/-- The free-sector map: one bit per sector, `true` = used. -/
def Bitmap := List Bool
deriving DecidableEq, Repr

/-- Modelled from the spec: `Bitmap::Test(s)` (section 4.1). -/
def Bitmap.test (b : Bitmap) (s : Nat) : Bool :=
  List.getD b s false

/-- Modelled from the spec: `Bitmap::Clear(s)` (section 4.1). -/
def Bitmap.clear (b : Bitmap) (s : Nat) : Bitmap :=
  List.set b s false

/-- Modelled from the spec: `Bitmap::Mark(s)` (section 4.1). -/
def Bitmap.mark (b : Bitmap) (s : Nat) : Bitmap :=
  List.set b s true

/-- Modelled from the spec: `Bitmap::FindAndSet` returns the lowest-indexed
free sector and marks it, or fails when the map is full (section 4.1). -/
def Bitmap.findAndSet (b : Bitmap) : Option (Nat × Bitmap) :=
  match List.findIdx? (· = false) b with
  | none => none
  | some i => some (i, Bitmap.mark b i)

/-! ## File header (modelled from the spec, section 4.2) -/

structure FileHeader where
  numBytes : Nat
  dataSectors : List Nat
deriving DecidableEq, Repr

/-- Number of data sectors needed to cover `size` bytes. -/
def sectorsNeeded (size : Nat) : Nat := (size + SectorSize - 1) / SectorSize

/-- Grab `n` sectors from the bitmap via repeated `FindAndSet`; all-or-nothing. -/
def allocSectors (b : Bitmap) : Nat → Option (List Nat × Bitmap)
  | 0 => some ([], b)
  | n + 1 =>
    match Bitmap.findAndSet b with
    | none => none
    | some (s, b') => (allocSectors b' n).map (fun p => (s :: p.1, p.2))

/-- Modelled from the spec: `FileHeader::Allocate(freeMap, sizeBytes)` either
reserves every needed data block and succeeds, or fails; `filesys.cc` reads
failure off the `totalSize <= 0` integer return, encoded here as `none`
(sections 4.2 and 6). -/
def FileHeader.allocate (b : Bitmap) (size : Nat) : Option (FileHeader × Bitmap) :=
  (allocSectors b (sectorsNeeded size)).map (fun p => (⟨size, p.1⟩, p.2))

/-- Modelled from the spec: `FileHeader::Deallocate(freeMap)` returns every
owned data block to the free map (section 4.2). -/
def FileHeader.deallocate (h : FileHeader) (b : Bitmap) : Bitmap :=
  h.dataSectors.foldl Bitmap.clear b

/-! ## File-system state

The abstract on-disk state: contents of the free-map file, contents of every
directory file (indexed by the sector of the directory's header, which is
what an `OpenFile` handle is bound to), and every file header.  The open-file
table of `FileSystem` is the handle counter `openFileTableTop` together with
the list of header sectors the stored `OpenFile*` handles are bound to. -/

structure FS where
  freeMapDisk : Bitmap
  dirs : List (Nat × Directory)
  hdrs : List (Nat × FileHeader)
  openFileTableTop : Nat
  openFileTable : List Nat
deriving DecidableEq, Repr

/-- Association-list lookup. -/
def assocFind {α : Type} : List (Nat × α) → Nat → Option α
  | [], _ => none
  | (k, v) :: rest, key => if k = key then some v else assocFind rest key

/-- Association-list update-or-insert. -/
def assocSet {α : Type} : List (Nat × α) → Nat → α → List (Nat × α)
  | [], key, v => [(key, v)]
  | (k, v') :: rest, key, v =>
    if k = key then (key, v) :: rest else (k, v') :: assocSet rest key v

/-- Contents of the directory file whose header sits at sector `s`
(`Directory::FetchFrom` on an `OpenFile(s)`). -/
def lookupDir (fs : FS) (s : Nat) : Directory :=
  (assocFind fs.dirs s).getD ⟨[]⟩

/-- The file header stored at sector `s` (`FileHeader::FetchFrom(s)`). -/
def lookupHdr (fs : FS) (s : Nat) : FileHeader :=
  (assocFind fs.hdrs s).getD ⟨0, []⟩

/-! ## Path tokenization

`strtok(name, "/")` splits on slashes, skipping leading, trailing and
repeated separators; the components come out in order. -/

/-- Accumulating tokenizer over the character list; `acc` holds the current
component reversed. -/
def tokAux : List Char → List Char → List String
  | [], acc => if acc.isEmpty then [] else [String.mk acc.reverse]
  | c :: cs, acc =>
    if c = '/' then
      if acc.isEmpty then tokAux cs [] else String.mk acc.reverse :: tokAux cs []
    else tokAux cs (c :: acc)

/-- The component sequence `strtok(·, "/")` yields for a path string. -/
def tokenize (s : String) : List String := tokAux s.toList []

/-! ## FileSystem::FindSubDirectory (filesys.cc:493-546)

Walk the non-terminal components starting from the root directory file
(sector 1).  On success return the header sector of the directory containing
the terminal component, together with the terminal component (the source
overwrites the caller's buffer with it); `none` when a component is missing
or the path has no components. -/

def fsdLoop (fs : FS) : Nat → String → List String → Option (Nat × String)
  | cur, cut, [] => some (cur, cut)
  | cur, cut, nextCut :: rest =>
    match (lookupDir fs cur).find? cut with
    | none => none
    | some sector => fsdLoop fs sector nextCut rest

def FindSubDirectory (fs : FS) (name : String) : Option (Nat × String) :=
  match tokenize name with
  | [] => none
  | cut :: rest => fsdLoop fs DirectorySector cut rest

/-! ## FileSystem::Create (filesys.cc:179-258)

The result records the final state, the boolean return and the sequence of
disk `WriteBack`s performed, in order. -/

inductive DiskWrite where
  | whdr (sector : Nat) (h : FileHeader)
  | wdir (sector : Nat) (d : Directory)
  | wmap (b : Bitmap)
deriving DecidableEq, Repr

structure CreateOut where
  fs : FS
  ok : Bool
  writes : List DiskWrite
deriving DecidableEq, Repr

def FS.create (fs : FS) (pathName : String) (initialSize : Nat) (isDir : Bool) :
    CreateOut :=
  let initialSize := if isDir then DirectoryFileSize else initialSize
  match FindSubDirectory fs pathName with
  | none => ⟨fs, false, []⟩
  | some (curS, name) =>
    let directory := lookupDir fs curS
    if (directory.find? name).isSome then ⟨fs, false, []⟩
    else
      match (fs.freeMapDisk).findAndSet with
      | none => ⟨fs, false, []⟩
      | some (sector, freeMap₁) =>
        match directory.add name sector isDir with
        | none => ⟨fs, false, []⟩
        | some directory₁ =>
          match FileHeader.allocate freeMap₁ initialSize with
          | none => ⟨fs, false, []⟩
          | some (hdr, freeMap₂) =>
            ⟨{ fs with
                hdrs := assocSet fs.hdrs sector hdr,
                dirs := assocSet fs.dirs curS directory₁,
                freeMapDisk := freeMap₂ },
              true,
              [.whdr sector hdr, .wdir curS directory₁, .wmap freeMap₂]⟩

/-! ## FileSystem::Open (filesys.cc:270-306) -/

def FS.open (fs : FS) (pathName : String) : FS × Option Nat :=
  match FindSubDirectory fs pathName with
  | none => (fs, none)
  | some (curS, name) =>
    let directory := lookupDir fs curS
    let sector? := directory.find? name
    if fs.openFileTableTop ≥ 487 then (fs, none)
    else
      match sector? with
      | some sector =>
        ({ fs with
            openFileTable := fs.openFileTable ++ [sector],
            openFileTableTop := fs.openFileTableTop + 1 },
          some sector)
      | none => (fs, none)

/-! ## FileSystem::Remove (filesys.cc:322-401)

The source function recurses on path strings built from on-disk directory
contents; in C this need not terminate on a cyclic disk, so the embedding
takes explicit fuel and returns `none` exactly when the fuel runs out.

Structure, mirroring the source: resolve the containing directory and fetch
it; fail (`FALSE`) when the terminal name is absent.  When the target is a
directory and `recursive` holds, fetch the target directory and remove every
in-use entry through a fresh `Remove(TRUE, pathName ++ "/" ++ childName)`
call, iterating over the table fetched *before* the recursion.  Afterwards
fetch the target's header and a *fresh* bitmap (both after the recursion),
deallocate the data blocks, clear the header sector, remove the entry from
the containing directory fetched *before* the recursion, and write bitmap
and containing directory back. -/

/-- The `for` loop over the fetched target-directory table: for each in-use
entry, call `rm` (a `Remove(TRUE, ·)` continuation) on
`pathName ++ "/" ++ childName` and continue with the resulting state; the
loop result is discarded by the source, state threads through. -/
def removeChildrenGo (rm : FS → String → Option (FS × Bool)) :
    FS → String → List DirEntry → Option FS
  | fs, _, [] => some fs
  | fs, pathName, e :: rest =>
    if e.inUse then
      match rm fs (pathName ++ "/" ++ e.name) with
      | none => none
      | some (fs', _) => removeChildrenGo rm fs' pathName rest
    else removeChildrenGo rm fs pathName rest

def removeF : Nat → FS → Bool → String → Option (FS × Bool)
  | 0, _, _, _ => none
  | n + 1, fs, recursive, pathName =>
    match FindSubDirectory fs pathName with
    | none => some (fs, false)
    | some (curS, name) =>
      let directory := lookupDir fs curS
      match directory.find? name with
      | none => some (fs, false)
      | some sector =>
        let mid : Option FS :=
          if directory.isDirEntry name && recursive then
            removeChildrenGo (fun fs' p' => removeF n fs' true p') fs pathName
              (lookupDir fs sector).table
          else some fs
        match mid with
        | none => none
        | some fsMid =>
          let fileHdr := lookupHdr fsMid sector
          let freeMap := fsMid.freeMapDisk
          let freeMap := fileHdr.deallocate freeMap
          let freeMap := freeMap.clear sector
          let directory := directory.removeName name
          some ({ fsMid with
                    freeMapDisk := freeMap,
                    dirs := assocSet fsMid.dirs curS directory },
                true)

/-! ## FileSystem::List (filesys.cc:408-451)

Listing only prints; the observable part for the claims is which directory
gets listed (or that resolution fails), so the embedding returns the header
sector of the directory whose contents are printed. -/

def FS.list (fs : FS) (pathName : String) : Option Nat :=
  if pathName = "/" then some DirectorySector
  else
    match FindSubDirectory fs pathName with
    | none => none
    | some (curS, name) =>
      match (lookupDir fs curS).find? name with
      | none => none
      | some sector => some sector

/-! ## Directory-handle lifecycle during Open (filesys.cc traversal ownership)

`FindSubDirectory` opens one `OpenFile` per descent and deletes the previous
one unless it is the root handle; on its internal failure path it deletes
the current non-root handle before returning.  The handle it returns is
owned by the caller, which must delete it when it is not the root handle.
`HEvent` records each such `new OpenFile` / `delete` of an intermediate
directory handle (identified by the sector it is bound to); the root handle
(sector 1) is borrowed and never appears as an event. -/

inductive HEvent where
  | opened (s : Nat)
  | deleted (s : Nat)
deriving DecidableEq, Repr

/-- Handle events of the `FindSubDirectory` walk, paired with its result. -/
def fsdLoopEv (fs : FS) : Nat → String → List String →
    Option (Nat × String) × List HEvent
  | cur, cut, [] => (some (cur, cut), [])
  | cur, cut, nextCut :: rest =>
    match (lookupDir fs cur).find? cut with
    | none =>
      (none, if cur ≠ DirectorySector then [.deleted cur] else [])
    | some sector =>
      let pre := if cur ≠ DirectorySector then [HEvent.deleted cur] else []
      let out := fsdLoopEv fs sector nextCut rest
      (out.1, pre ++ HEvent.opened sector :: out.2)

def findSubDirEv (fs : FS) (name : String) : Option (Nat × String) × List HEvent :=
  match tokenize name with
  | [] => (none, [])
  | cut :: rest => fsdLoopEv fs DirectorySector cut rest

/-- Intermediate-directory-handle events of `FileSystem::Open`: the events of
the traversal, then — except on the early `return NULL` taken when
`openFileTableTop >= 487`, which skips the cleanup — the final
`if (curDirFile != directoryFile) delete curDirFile`. -/
def FS.openEv (fs : FS) (pathName : String) : List HEvent :=
  match findSubDirEv fs pathName with
  | (none, evs) => evs
  | (some (curS, _name), evs) =>
    if fs.openFileTableTop ≥ 487 then evs
    else evs ++ (if curS ≠ DirectorySector then [HEvent.deleted curS] else [])

/-- Count of `opened` events for sector `s`. -/
def countOpened (evs : List HEvent) (s : Nat) : Nat :=
  (evs.filter (· = HEvent.opened s)).length

/-- Count of `deleted` events for sector `s`. -/
def countDeleted (evs : List HEvent) (s : Nat) : Nat :=
  (evs.filter (· = HEvent.deleted s)).length

/-- A handle-event trace is balanced when every traversal-opened handle is
also deleted. -/
def balanced (evs : List HEvent) : Prop :=
  ∀ s, countOpened evs s = countDeleted evs s

/-! ## Scheduler (code/threads/scheduler.cc)

Threads are heap objects referenced from the queues by pointer; the
embedding keeps the heap as an association list from thread id to record and
lets the three queues hold ids.  `double` arithmetic in the burst estimate is
carried out in `ℚ`: on the tick magnitudes involved, halves of machine
integers are represented exactly by IEEE doubles, so the comparison agrees
with the source's. -/

inductive ThreadStatus where
  | JUST_CREATED | RUNNING | READY | BLOCKED | ZOMBIE
deriving DecidableEq, Repr

structure Thread where
  id : Nat
  priority : Int
  burstTime : Int
  startTime : Int
  startWaitTime : Int
  status : ThreadStatus
deriving DecidableEq, Repr

def defaultThread : Thread := ⟨0, 0, 0, 0, 0, .JUST_CREATED⟩

structure Kernel where
  threads : List (Nat × Thread)
  l1 : List Nat
  l2 : List Nat
  l3 : List Nat
  current : Nat
  totalTicks : Int
  userTicks : Int
deriving DecidableEq, Repr

/-- Dereference the `Thread*` with the given id. -/
def getT (k : Kernel) (tid : Nat) : Thread :=
  (assocFind k.threads tid).getD defaultThread

def assocUpdate : List (Nat × Thread) → Nat → (Thread → Thread) →
    List (Nat × Thread)
  | [], _, _ => []
  | (key, v) :: rest, tid, f =>
    if key = tid then (key, f v) :: rest else (key, v) :: assocUpdate rest tid f

/-- Mutate the thread object with the given id in place. -/
def setT (k : Kernel) (tid : Nat) (f : Thread → Thread) : Kernel :=
  { k with threads := assocUpdate k.threads tid f }

/-- `burstCmp` (scheduler.cc:37-44). -/
def burstCmp (a b : Thread) : Int :=
  if a.burstTime = b.burstTime then 0
  else if a.burstTime > b.burstTime then 1 else -1

/-- `priorityCmp` (scheduler.cc:46-53). -/
def priorityCmp (a b : Thread) : Int :=
  if a.priority = b.priority then 0
  else if a.priority > b.priority then -1 else 1

/-- Modelled from the spec: `SortedList::Insert` places the new item before
the first queued item the comparator ranks strictly after it, hence after
every equal-ranked item — sorted order, stable on ties (sections 4.5 and 5). -/
def insertQ (lt : Nat → Nat → Bool) (x : Nat) : List Nat → List Nat
  | [] => [x]
  | y :: rest => if lt x y then x :: y :: rest else y :: insertQ lt x rest

/-- The strict order `burstCmp` induces on queued ids. -/
def burstLt (k : Kernel) (a b : Nat) : Bool :=
  burstCmp (getT k a) (getT k b) < 0

/-- The strict order `priorityCmp` induces on queued ids. -/
def priorityLt (k : Kernel) (a b : Nat) : Bool :=
  priorityCmp (getT k a) (getT k b) < 0

/-- The preemption test shared by `ReadyToRun` and `CheckAging`
(scheduler.cc:168-181 and 79-89): with the inserted thread and the current
thread both in the L1 band and distinct, the current thread yields exactly
when the inserted thread's burst estimate is strictly below
`0.5 * (userTicks − current.startTime) + 0.5 * current.burstTime`. -/
def sjfTest (userTicks : Int) (cur inserted : Thread) : Bool :=
  if (100 ≤ cur.priority ∧ cur.priority ≤ 149) then
    if cur.id ≠ inserted.id then
      let actBurst : ℚ := (userTicks : ℚ) - (cur.startTime : ℚ)
      let estBurst : ℚ := (1/2) * actBurst + (1/2) * (cur.burstTime : ℚ)
      decide ((inserted.burstTime : ℚ) < estBurst)
    else false
  else false

/-- `Scheduler::ReadyToRun` (scheduler.cc:137-182).  The boolean reports
whether `kernel->currentThread->Yield()` was invoked. -/
def readyToRun (k : Kernel) (tid : Nat) : Kernel × Bool :=
  let k1 := setT k tid (fun t => { t with status := .READY })
  let t := getT k1 tid
  let p := t.priority
  let nowTime := k1.totalTicks
  let k2 :=
    if 100 ≤ p ∧ p ≤ 149 then { k1 with l1 := insertQ (burstLt k1) tid k1.l1 }
    else if 50 ≤ p ∧ p ≤ 99 then { k1 with l2 := insertQ (priorityLt k1) tid k1.l2 }
    else { k1 with l3 := k1.l3 ++ [tid] }
  let k3 := setT k2 tid (fun t => { t with startWaitTime := nowTime })
  if 100 ≤ p ∧ p ≤ 149 then
    (k3, sjfTest k3.userTicks (getT k3 k3.current) (getT k3 tid))
  else (k3, false)

/-- `Scheduler::CheckAging` (scheduler.cc:56-105).  The first boolean is the
source's return value, the second reports whether the current thread yielded. -/
def checkAging (k : Kernel) (tid : Nat) : Kernel × Bool × Bool :=
  let nowTime := k.totalTicks
  let t := getT k tid
  if t.status = .READY ∧ nowTime - t.startWaitTime ≥ 1500 then
    let oldPriority := t.priority
    let newPriority := if oldPriority + 10 > 149 then 149 else oldPriority + 10
    let k := setT k tid (fun t => { t with priority := newPriority })
    if 100 ≤ newPriority ∧ newPriority < 110 then
      let k := if tid ∈ k.l2 then { k with l2 := k.l2.erase tid } else k
      let k := { k with l1 := insertQ (burstLt k) tid k.l1 }
      let yld := sjfTest k.userTicks (getT k k.current) (getT k tid)
      let k := setT k tid (fun t => { t with startWaitTime := nowTime })
      (k, true, yld)
    else if 50 ≤ newPriority ∧ newPriority < 60 then
      let k := { k with l3 := k.l3.erase tid }
      let k := { k with l2 := insertQ (priorityLt k) tid k.l2 }
      let k := setT k tid (fun t => { t with startWaitTime := nowTime })
      (k, false, false)
    else
      let k := setT k tid (fun t => { t with startWaitTime := nowTime })
      (k, false, false)
  else (k, false, false)

/-- `Scheduler::FindNextToRun` (scheduler.cc:192-222). -/
def findNextToRun (k : Kernel) : Kernel × Option Nat :=
  match k.l1 with
  | tid :: rest => ({ k with l1 := rest }, some tid)
  | [] =>
    match k.l2 with
    | tid :: rest => ({ k with l2 := rest }, some tid)
    | [] =>
      match k.l3 with
      | tid :: rest => ({ k with l3 := rest }, some tid)
      | [] => (k, none)

/-- A queue built by a sequence of `SortedList::Insert`s into an initially
empty queue. -/
def buildQueue (lt : Nat → Nat → Bool) (ts : List Nat) : List Nat :=
  ts.foldl (fun q x => insertQ lt x q) []

/-- The first element of the insertion sequence attaining the least rank:
the fold keeps the earlier element on ties. -/
def firstLeast (lt : Nat → Nat → Bool) (t : Nat) (ts : List Nat) : Nat :=
  ts.foldl (fun b x => if lt x b then x else b) t

/-! ## Character-buffer model of the public file-system operations

The public operations receive `char *pathName` and tokenize with `strtok`,
which writes into the buffer it is given; each operation therefore first
`strcpy`s the argument into a fresh local `char name[1000]`.  To state the
frame property over the caller's memory, buffers are modelled as a heap of
C strings addressed by `Nat`, with stack locals allocated at fresh
addresses.  The instrumented operations mirror the source's buffer traffic;
the file-system outcome itself is delegated to the pure embeddings above,
which consume the very string value the buffer holds. -/

structure Heap where
  mem : Nat → String
  next : Nat

def Heap.read (h : Heap) (a : Nat) : String := h.mem a

def Heap.write (h : Heap) (a : Nat) (s : String) : Heap :=
  { h with mem := fun x => if x = a then s else h.mem x }

/-- Allocate a fresh local buffer. -/
def Heap.alloc (h : Heap) : Nat × Heap := (h.next, { h with next := h.next + 1 })

/-- The C string left in a buffer by a `strtok` walk that stopped on a
failure path with at least two components: `strtok` has overwritten the
separator ending the first component with `NUL`, so the visible string is
the leading separators followed by the first component. -/
def strtokDamaged (p : String) : String :=
  String.mk (p.toList.takeWhile (· = '/') ++
    (p.toList.dropWhile (· = '/')).takeWhile (· ≠ '/'))

/-- `FindSubDirectory` on the buffer at `addr`: the walk reads the buffer,
and its writes land only there — on success the final
`strcpy(name, cut)` leaves the terminal component; on the failure paths the
`strtok` damage remains (or, with no component at all, `strtok` wrote
nothing). -/
def findSubDirH (fs : FS) (h : Heap) (addr : Nat) : Option (Nat × String) × Heap :=
  let p := h.read addr
  match FindSubDirectory fs p with
  | some r => (some r, h.write addr r.2)
  | none => (none, if (tokenize p).isEmpty then h else h.write addr (strtokDamaged p))

/-- `FileSystem::Create` over buffers (filesys.cc:179-258): copy the caller's
path into a fresh local, hand the local to `FindSubDirectory`; every later
step mutates only heap-free objects (directory, bitmap, header). -/
def FS.createH (fs : FS) (h : Heap) (pathAddr : Nat) (initialSize : Nat)
    (isDir : Bool) : (FS × Bool) × Heap :=
  let (nameAddr, h1) := h.alloc
  let h2 := h1.write nameAddr (h1.read pathAddr)
  let (r, h3) := findSubDirH fs h2 nameAddr
  match r with
  | none => ((fs, false), h3)
  | some _ =>
    let out := FS.create fs (h.read pathAddr) initialSize isDir
    ((out.fs, out.ok), h3)

/-- `FileSystem::Open` over buffers (filesys.cc:270-306). -/
def FS.openH (fs : FS) (h : Heap) (pathAddr : Nat) :
    (FS × Option Nat) × Heap :=
  let (nameAddr, h1) := h.alloc
  let h2 := h1.write nameAddr (h1.read pathAddr)
  let (r, h3) := findSubDirH fs h2 nameAddr
  match r with
  | none => ((fs, none), h3)
  | some _ => (FS.open fs (h.read pathAddr), h3)

/-- `FileSystem::List` over buffers (filesys.cc:408-451); the literal path
`"/"` takes the special case with no copy and no tokenization. -/
def FS.listH (fs : FS) (h : Heap) (pathAddr : Nat) : Option Nat × Heap :=
  if h.read pathAddr = "/" then (some DirectorySector, h)
  else
    let (nameAddr, h1) := h.alloc
    let h2 := h1.write nameAddr (h1.read pathAddr)
    let (_, h3) := findSubDirH fs h2 nameAddr
    (FS.list fs (h.read pathAddr), h3)

/-! `FileSystem::Remove` over buffers (filesys.cc:322-401).  The recursive
branch allocates one local `char tarPathName[1000]` and rewrites it to
`pathName ++ "/" ++ childName` before each recursive call — the recursive
call receives the *outer local* as its path argument. -/

/-- The child-removal loop over buffers: rewrite the outer local
`tarPathName` to `pathName ++ "/" ++ childName` and hand that buffer's
*address* to the `Remove(TRUE, ·)` continuation `rm`. -/
def removeChildrenGoH (rm : FS → Heap → Nat → Option ((FS × Bool) × Heap)) :
    FS → Heap → Nat → String → List DirEntry → Option (FS × Heap)
  | fs, h, _, _, [] => some (fs, h)
  | fs, h, tarAddr, pathName, e :: rest =>
    if e.inUse then
      let h1 := h.write tarAddr (pathName ++ "/" ++ e.name)
      match rm fs h1 tarAddr with
      | none => none
      | some ((fs', _), h2) => removeChildrenGoH rm fs' h2 tarAddr pathName rest
    else removeChildrenGoH rm fs h tarAddr pathName rest

def removeH : Nat → FS → Heap → Bool → Nat → Option ((FS × Bool) × Heap)
  | 0, _, _, _, _ => none
  | n + 1, fs, h, recursive, pathAddr =>
    let p := h.read pathAddr
    let (nameAddr, h1) := h.alloc
    let h2 := h1.write nameAddr p
    let (r, h3) := findSubDirH fs h2 nameAddr
    match r with
    | none => some ((fs, false), h3)
    | some (curS, name) =>
      let directory := lookupDir fs curS
      match directory.find? name with
      | none => some ((fs, false), h3)
      | some sector =>
        let mid : Option (FS × Heap) :=
          if directory.isDirEntry name && recursive then
            let (tarAddr, h4) := h3.alloc
            let h5 := h4.write tarAddr p
            removeChildrenGoH (fun fs' h' a' => removeH n fs' h' true a')
              fs h5 tarAddr p (lookupDir fs sector).table
          else some (fs, h3)
        match mid with
        | none => none
        | some (fsMid, hMid) =>
          let fileHdr := lookupHdr fsMid sector
          let freeMap := (fileHdr.deallocate fsMid.freeMapDisk).clear sector
          some (({ fsMid with
                     freeMapDisk := freeMap,
                     dirs := assocSet fsMid.dirs curS (directory.removeName name) },
                  true), hMid)

/-! ## Concrete states used to exercise the definitions

A small disk: the root directory (header sector 1) holds a subdirectory
`a` (header sector 2, data sector 4) which holds plain files `b`
(header 3, data 6) and `c` (header 5, data 7); sectors 8 and 9 are free. -/

def rootDirEx : Directory := ⟨[⟨true, "a", 2, true⟩, ⟨false, "", 0, false⟩]⟩

def dirAEx : Directory :=
  ⟨[⟨true, "b", 3, false⟩, ⟨true, "c", 5, false⟩, ⟨false, "", 0, false⟩]⟩

def fsEx : FS :=
  { freeMapDisk := [true, true, true, true, true, true, true, true, false, false]
    dirs := [(1, rootDirEx), (2, dirAEx)]
    hdrs := [(2, ⟨DirectoryFileSize, [4]⟩), (3, ⟨100, [6]⟩), (5, ⟨100, [7]⟩)]
    openFileTableTop := 0
    openFileTable := [] }

/-! ## Association-list lemmas -/

theorem assocFind_assocSet {α : Type} (m : List (Nat × α)) (k : Nat) (v : α)
    (key : Nat) :
    assocFind (assocSet m k v) key = if key = k then some v else assocFind m key := by
  induction m with
  | nil =>
    by_cases h : key = k
    · subst h; simp [assocSet, assocFind]
    · simp [assocSet, assocFind, h, Ne.symm h]
  | cons p rest ih =>
    obtain ⟨k', v'⟩ := p
    by_cases h1 : k' = k
    · subst h1
      by_cases h2 : key = k'
      · subst h2; simp [assocSet, assocFind]
      · simp [assocSet, assocFind, h2, Ne.symm h2]
    · by_cases h2 : k' = key
      · subst h2
        simp [assocSet, assocFind, h1, Ne.symm h1]
      · simp [assocSet, assocFind, h1, h2, ih]

theorem assocFind_assocUpdate (m : List (Nat × Thread)) (tid : Nat)
    (f : Thread → Thread) (key : Nat) :
    assocFind (assocUpdate m tid f) key =
      if key = tid then (assocFind m tid).map f else assocFind m key := by
  induction m with
  | nil =>
    by_cases h : key = tid
    · subst h; simp [assocUpdate, assocFind]
    · simp [assocUpdate, assocFind, h, Ne.symm h]
  | cons p rest ih =>
    obtain ⟨k', v'⟩ := p
    by_cases h1 : k' = tid
    · subst h1
      by_cases h2 : key = k'
      · subst h2; simp [assocUpdate, assocFind]
      · simp [assocUpdate, assocFind, h2, Ne.symm h2]
    · by_cases h2 : k' = key
      · subst h2
        simp [assocUpdate, assocFind, h1, Ne.symm h1]
      · simp [assocUpdate, assocFind, h1, h2, ih]

theorem lookupDir_assocSet (fs : FS) (s : Nat) (d : Directory) (key : Nat) :
    lookupDir { fs with dirs := assocSet fs.dirs s d } key =
      if key = s then d else lookupDir fs key := by
  by_cases h : key = s <;> simp [lookupDir, assocFind_assocSet, h]

/-! ## Bitmap lemmas -/

theorem getD_set_self (l : List Bool) (i : Nat) (v : Bool) :
    List.getD (List.set l i v) i v = v := by
  induction l generalizing i with
  | nil => simp [List.getD]
  | cons b rest ih =>
    cases i with
    | zero => simp
    | succ j => simpa using ih j

theorem getD_set_ne (l : List Bool) (i j : Nat) (v d : Bool) (h : i ≠ j) :
    List.getD (List.set l i v) j d = List.getD l j d := by
  induction l generalizing i j with
  | nil => simp
  | cons b rest ih =>
    cases i with
    | zero => cases j with
      | zero => exact absurd rfl h
      | succ j' => simp
    | succ i' => cases j with
      | zero => simp
      | succ j' => simpa using ih i' j' (fun hc => h (by rw [hc]))

theorem test_clear_self (b : Bitmap) (s : Nat) :
    (Bitmap.clear b s).test s = false := by
  simpa [Bitmap.clear, Bitmap.test] using getD_set_self b s false

theorem test_clear_ne (b : Bitmap) (s j : Nat) (h : s ≠ j) :
    (Bitmap.clear b s).test j = b.test j := by
  simpa [Bitmap.clear, Bitmap.test] using getD_set_ne b s j false false h

theorem test_clear_false (b : Bitmap) (s j : Nat) (h : b.test j = false) :
    (Bitmap.clear b s).test j = false := by
  by_cases hsj : s = j
  · subst hsj; exact test_clear_self b s
  · rw [test_clear_ne b s j hsj]; exact h

theorem foldl_clear_false (l : List Nat) (b : Bitmap) (j : Nat)
    (h : b.test j = false) : (l.foldl Bitmap.clear b).test j = false := by
  induction l generalizing b with
  | nil => exact h
  | cons s rest ih => exact ih (Bitmap.clear b s) (test_clear_false b s j h)

theorem foldl_clear_mem (l : List Nat) (b : Bitmap) (j : Nat) (h : j ∈ l) :
    (l.foldl Bitmap.clear b).test j = false := by
  induction l generalizing b with
  | nil => cases h
  | cons s rest ih =>
    rcases List.mem_cons.mp h with h1 | h2
    · subst h1
      exact foldl_clear_false rest (Bitmap.clear b j) j (test_clear_self b j)
    · exact ih (Bitmap.clear b s) h2

theorem deallocate_test_mem (hd : FileHeader) (b : Bitmap) (j : Nat)
    (h : j ∈ hd.dataSectors) : (hd.deallocate b).test j = false :=
  foldl_clear_mem hd.dataSectors b j h

/-! ## Create: failure frame and success characterisation -/

/-- Every run of `FileSystem::Create` either succeeds or returns the call's
exact input state with no disk write. -/
theorem create_cases (fs : FS) (p : String) (sz : Nat) (d : Bool) :
    (FS.create fs p sz d).ok = true ∨ FS.create fs p sz d = ⟨fs, false, []⟩ := by
  rcases hf : FindSubDirectory fs p with _ | ⟨curS, name⟩
  · right; simp [FS.create, hf]
  · rcases hfind : (lookupDir fs curS).find? name with _ | s
    · rcases hfa : fs.freeMapDisk.findAndSet with _ | ⟨sector, freeMap₁⟩
      · right; simp [FS.create, hf, hfind, hfa]
      · rcases hadd : (lookupDir fs curS).add name sector d with _ | dir₁
        · right; simp [FS.create, hf, hfind, hfa, hadd]
        · rcases hal : FileHeader.allocate freeMap₁ (if d then DirectoryFileSize else sz)
            with _ | ⟨hdr, freeMap₂⟩
          · right; simp [FS.create, hf, hfind, hfa, hadd, hal]
          · left; simp [FS.create, hf, hfind, hfa, hadd, hal]
    · right; simp [FS.create, hf, hfind]

/-- C1: whenever `FileSystem::Create` returns false — for any of its failure
causes — no `WriteBack` is performed and the on-disk state (free-map file,
every directory file, every header) is identical to the pre-call state; the
in-memory `FindAndSet` and `Directory::Add` mutations are discarded. -/
theorem create_fail_discards_c1 (fs : FS) (p : String) (sz : Nat) (d : Bool)
    (h : (FS.create fs p sz d).ok = false) :
    (FS.create fs p sz d).fs = fs ∧ (FS.create fs p sz d).writes = [] := by
  rcases create_cases fs p sz d with hok | heq
  · rw [h] at hok; cases hok
  · rw [heq]; exact ⟨rfl, rfl⟩

theorem create_fail_discards_c1_witness :
    (FS.create fsEx "/a/b" 100 false).ok = false ∧
    (FS.create fsEx "/a/b" 100 false).fs = fsEx ∧
    (FS.create fsEx "/a/b" 100 false).writes = [] :=
  ⟨by decide, create_fail_discards_c1 fsEx "/a/b" 100 false (by decide)⟩

/-- C5: `FileSystem::Create(path, initialSize, isDir)` returns true exactly
when the parent directory resolves, the terminal name is absent from it, a
free sector exists for the new header, the parent directory has a free slot
(i.e. `Add` succeeds), and `FileHeader::Allocate` reserves all data blocks;
on success it writes back the new header, then the mutated parent directory,
then the mutated bitmap, in that order; and when `isDir` is true the
requested size is replaced by `DirectoryFileSize`. -/
theorem create_ok_spec_c5 (fs : FS) (p : String) (sz : Nat) (d : Bool) :
    ((FS.create fs p sz d).ok = true ↔
      ∃ curS name sector freeMap₁ dir₁ hdr freeMap₂,
        FindSubDirectory fs p = some (curS, name) ∧
        (lookupDir fs curS).find? name = none ∧
        fs.freeMapDisk.findAndSet = some (sector, freeMap₁) ∧
        (lookupDir fs curS).add name sector d = some dir₁ ∧
        FileHeader.allocate freeMap₁ (if d then DirectoryFileSize else sz) =
          some (hdr, freeMap₂) ∧
        (FS.create fs p sz d).writes =
          [.whdr sector hdr, .wdir curS dir₁, .wmap freeMap₂]) ∧
    FS.create fs p sz true = FS.create fs p DirectoryFileSize true := by
  constructor
  · rcases hf : FindSubDirectory fs p with _ | ⟨curS, name⟩
    · simp [FS.create, hf]
    · rcases hfind : (lookupDir fs curS).find? name with _ | s
      · rcases hfa : fs.freeMapDisk.findAndSet with _ | ⟨sector, freeMap₁⟩
        · simp [FS.create, hf, hfind, hfa]
        · rcases hadd : (lookupDir fs curS).add name sector d with _ | dir₁
          · simp [FS.create, hf, hfind, hfa, hadd]
          · rcases hal : FileHeader.allocate freeMap₁ (if d then DirectoryFileSize else sz)
              with _ | ⟨hdr, freeMap₂⟩
            · simp [FS.create, hf, hfind, hfa, hadd, hal]
            · constructor
              · intro _
                refine ⟨curS, name, sector, freeMap₁, dir₁, hdr, freeMap₂, rfl, hfind, rfl,
                  hadd, hal, ?_⟩
                simp [FS.create, hf, hfind, hfa, hadd, hal]
              · intro _
                simp [FS.create, hf, hfind, hfa, hadd, hal]
      · simp [FS.create, hf, hfind]
  · rfl

/-! ## Open: handle cap and lookup -/

/-- C7: `FileSystem::Open` returns null whenever the live-handle count has
reached 487 or the terminal name is absent from its parent directory;
otherwise it returns a handle bound to the sector found in the directory,
records it in the open-file table, and increments the live-handle count. -/
theorem open_spec_c7 (fs : FS) (p : String) :
    (fs.openFileTableTop ≥ 487 → (FS.open fs p).2 = none) ∧
    (∀ curS name, FindSubDirectory fs p = some (curS, name) →
       (lookupDir fs curS).find? name = none → (FS.open fs p).2 = none) ∧
    (∀ curS name sector, fs.openFileTableTop < 487 →
       FindSubDirectory fs p = some (curS, name) →
       (lookupDir fs curS).find? name = some sector →
       FS.open fs p =
         ({ fs with openFileTable := fs.openFileTable ++ [sector],
                    openFileTableTop := fs.openFileTableTop + 1 }, some sector)) := by
  refine ⟨?_, ?_, ?_⟩
  · intro hcap
    rcases hf : FindSubDirectory fs p with _ | ⟨curS, name⟩
    · simp [FS.open, hf]
    · simp [FS.open, hf, hcap]
  · intro curS name hf hfind
    simp [FS.open, hf, hfind]
  · intro curS name sector hcap hf hfind
    simp [FS.open, hf, hfind, not_le.mpr hcap]

theorem open_spec_c7_witness :
    (FS.open { fsEx with openFileTableTop := 487 } "/a/b").2 = none ∧
    FS.open fsEx "/a/b" =
      ({ fsEx with openFileTable := [3], openFileTableTop := 1 }, some 3) :=
  ⟨(open_spec_c7 { fsEx with openFileTableTop := 487 } "/a/b").1 (by decide),
   (open_spec_c7 fsEx "/a/b").2.2 2 "b" 3 (by decide) (by decide) (by decide)⟩

/-! ## Path-edge behaviour (empty paths, trailing slash) -/

theorem tokAux_append_slash (cs : List Char) :
    ∀ acc, tokAux (cs ++ ['/']) acc = tokAux cs acc := by
  induction cs with
  | nil =>
    intro acc
    by_cases h : acc.isEmpty <;> simp [tokAux, h]
  | cons c cs ih =>
    intro acc
    by_cases hc : c = '/'
    · by_cases h : acc.isEmpty <;> simp [tokAux, hc, h, ih]
    · simp [tokAux, hc, ih]

/-- A trailing separator adds no component: `strtok` coalesces it away. -/
theorem tokenize_append_slash (p : String) : tokenize (p ++ "/") = tokenize p := by
  have h : (p ++ "/").toList = p.toList ++ ['/'] := by
    cases p with
    | mk data => rfl
  rw [tokenize, h, tokAux_append_slash, tokenize]

/-- C9 counterexample: on a disk whose root holds the directory `a`, the
trailing-slash path `"/a/"` does *not* make `FindSubDirectory` return null —
it resolves exactly like `"/a"`, and `Open("/a/")` returns a live handle. -/
theorem trailing_slash_resolves_c9 :
    FindSubDirectory fsEx "/a/" = some (1, "a") ∧ (FS.open fsEx "/a/").2 = some 2 := by
  decide

/-- C9 (amended): paths that are empty or have no components (only slashes)
make `FindSubDirectory` return null — hence `Open` returns null and
`Create`/`Remove` return false — while a path with a trailing slash is
resolved exactly as if the trailing slash were absent. -/
theorem path_edge_spec_c9 :
    (∀ (fs : FS) (p : String) (sz n : Nat) (d r : Bool), tokenize p = [] →
       FindSubDirectory fs p = none ∧ (FS.open fs p).2 = none ∧
       (FS.create fs p sz d).ok = false ∧
       removeF (n + 1) fs r p = some (fs, false)) ∧
    (∀ (fs : FS) (p : String), FindSubDirectory fs (p ++ "/") = FindSubDirectory fs p) := by
  constructor
  · intro fs p sz n d r htok
    have hf : FindSubDirectory fs p = none := by rw [FindSubDirectory, htok]
    exact ⟨hf, by simp [FS.open, hf], by simp [FS.create, hf], by rw [removeF, hf]⟩
  · intro fs p
    rw [FindSubDirectory, FindSubDirectory, tokenize_append_slash]

theorem path_edge_spec_c9_witness :
    tokenize "///" = [] ∧ FindSubDirectory fsEx "///" = none ∧
    (FS.open fsEx "///").2 = none ∧ (FS.create fsEx "///" 7 false).ok = false ∧
    removeF 3 fsEx true "///" = some (fsEx, false) :=
  ⟨by decide, path_edge_spec_c9.1 fsEx "///" 7 2 false true (by decide)⟩


theorem getT_setT_self (k : Kernel) (tid : Nat) (f : Thread → Thread) (t : Thread)
    (h : assocFind k.threads tid = some t) : getT (setT k tid f) tid = f t := by
  simp [getT, setT, assocFind_assocUpdate, h]

theorem getT_setT_ne (k : Kernel) (tid key : Nat) (f : Thread → Thread)
    (h : key ≠ tid) : getT (setT k tid f) key = getT k key := by
  simp [getT, setT, assocFind_assocUpdate, h]

theorem assocFind_setT (k : Kernel) (tid key : Nat) (f : Thread → Thread) :
    assocFind (setT k tid f).threads key =
      if key = tid then (assocFind k.threads tid).map f else assocFind k.threads key := by
  simp [setT, assocFind_assocUpdate]

theorem setT_l1 (k : Kernel) (tid : Nat) (f : Thread → Thread) :
    (setT k tid f).l1 = k.l1 := rfl

theorem setT_l2 (k : Kernel) (tid : Nat) (f : Thread → Thread) :
    (setT k tid f).l2 = k.l2 := rfl

theorem setT_l3 (k : Kernel) (tid : Nat) (f : Thread → Thread) :
    (setT k tid f).l3 = k.l3 := rfl

theorem setT_current (k : Kernel) (tid : Nat) (f : Thread → Thread) :
    (setT k tid f).current = k.current := rfl

theorem setT_totalTicks (k : Kernel) (tid : Nat) (f : Thread → Thread) :
    (setT k tid f).totalTicks = k.totalTicks := rfl

theorem setT_userTicks (k : Kernel) (tid : Nat) (f : Thread → Thread) :
    (setT k tid f).userTicks = k.userTicks := rfl

theorem insertQ_congr (lt lt' : Nat → Nat → Bool) (x : Nat) (q : List Nat)
    (h : ∀ a b, lt a b = lt' a b) : insertQ lt x q = insertQ lt' x q := by
  induction q with
  | nil => rfl
  | cons y rest ih => simp [insertQ, h, ih]

theorem burstLt_setT (k : Kernel) (tid : Nat) (f : Thread → Thread)
    (hf : ∀ u, (f u).burstTime = u.burstTime) (a b : Nat) :
    burstLt (setT k tid f) a b = burstLt k a b := by
  have key : ∀ x, (getT (setT k tid f) x).burstTime = (getT k x).burstTime := by
    intro x
    by_cases hx : x = tid
    · subst hx
      rcases hfind : assocFind k.threads x with _ | u
      · simp [getT, setT, assocFind_assocUpdate, hfind]
      · simp [getT, setT, assocFind_assocUpdate, hfind, hf]
    · simp [getT, setT, assocFind_assocUpdate, hx]
  simp [burstLt, burstCmp, key]

theorem priorityLt_setT (k : Kernel) (tid : Nat) (f : Thread → Thread)
    (hf : ∀ u, (f u).priority = u.priority) (a b : Nat) :
    priorityLt (setT k tid f) a b = priorityLt k a b := by
  have key : ∀ x, (getT (setT k tid f) x).priority = (getT k x).priority := by
    intro x
    by_cases hx : x = tid
    · subst hx
      rcases hfind : assocFind k.threads x with _ | u
      · simp [getT, setT, assocFind_assocUpdate, hfind]
      · simp [getT, setT, assocFind_assocUpdate, hfind, hf]
    · simp [getT, setT, assocFind_assocUpdate, hx]
  simp [priorityLt, priorityCmp, key]

theorem sjfTest_eq_true (u : Int) (cur ins : Thread) :
    (sjfTest u cur ins = true ↔
      (100 ≤ cur.priority ∧ cur.priority ≤ 149) ∧ cur.id ≠ ins.id ∧
      ((ins.burstTime : ℚ) <
        (1/2) * ((u : ℚ) - (cur.startTime : ℚ)) + (1/2) * (cur.burstTime : ℚ))) := by
  unfold sjfTest
  by_cases h1 : (100 ≤ cur.priority ∧ cur.priority ≤ 149) <;>
    by_cases h2 : cur.id ≠ ins.id <;> simp [h1, h2]

/-- C2: `Scheduler::ReadyToRun(t)` sets t's status to READY, inserts t into
the queue matching its current priority (L1 for 100-149, L2 for 50-99, L3
otherwise), stamps `startWaitTime` with the current total tick count; and the
running thread yields exactly when t lands in L1, the running thread is a
different thread whose priority is also in [100,149], and t's burst estimate
is strictly below `0.5*(userTicks - current.startTime) + 0.5*current.burstTime`. -/
theorem readyToRun_spec_c2 (k : Kernel) (tid : Nat) (t : Thread)
    (h : assocFind k.threads tid = some t) :
    assocFind (readyToRun k tid).1.threads tid =
      some { t with status := .READY, startWaitTime := k.totalTicks } ∧
    ((100 ≤ t.priority ∧ t.priority ≤ 149) →
      (readyToRun k tid).1.l1 = insertQ (burstLt k) tid k.l1 ∧
      (readyToRun k tid).1.l2 = k.l2 ∧ (readyToRun k tid).1.l3 = k.l3) ∧
    ((50 ≤ t.priority ∧ t.priority ≤ 99) →
      (readyToRun k tid).1.l2 = insertQ (priorityLt k) tid k.l2 ∧
      (readyToRun k tid).1.l1 = k.l1 ∧ (readyToRun k tid).1.l3 = k.l3) ∧
    (¬(100 ≤ t.priority ∧ t.priority ≤ 149) → ¬(50 ≤ t.priority ∧ t.priority ≤ 99) →
      (readyToRun k tid).1.l3 = k.l3 ++ [tid] ∧
      (readyToRun k tid).1.l1 = k.l1 ∧ (readyToRun k tid).1.l2 = k.l2) ∧
    ((readyToRun k tid).2 = true ↔
      (100 ≤ t.priority ∧ t.priority ≤ 149) ∧
      (100 ≤ (getT k k.current).priority ∧ (getT k k.current).priority ≤ 149) ∧
      (getT k k.current).id ≠ t.id ∧
      ((t.burstTime : ℚ) <
        (1/2) * ((k.userTicks : ℚ) - ((getT k k.current).startTime : ℚ)) +
        (1/2) * ((getT k k.current).burstTime : ℚ))) := by
  have hget1 : getT (setT k tid fun u => { u with status := .READY }) tid
      = { t with status := ThreadStatus.READY } := getT_setT_self k tid _ t h
  have hbq : ∀ a b, burstLt (setT k tid fun u => { u with status := .READY }) a b
      = burstLt k a b := burstLt_setT k tid _ (fun _ => rfl)
  have hpq : ∀ a b, priorityLt (setT k tid fun u => { u with status := .READY }) a b
      = priorityLt k a b := priorityLt_setT k tid _ (fun _ => rfl)
  have hIb : ∀ x q, insertQ (burstLt (setT k tid fun u => { u with status := .READY })) x q
      = insertQ (burstLt k) x q := fun x q => insertQ_congr _ _ x q hbq
  have hIp : ∀ x q, insertQ (priorityLt (setT k tid fun u => { u with status := .READY })) x q
      = insertQ (priorityLt k) x q := fun x q => insertQ_congr _ _ x q hpq
  by_cases hp1 : 100 ≤ t.priority ∧ t.priority ≤ 149
  · by_cases hc : k.current = tid
    · refine ⟨?_, fun _ => ?_, fun hp2 => absurd hp1 (by omega), fun hn1 _ => absurd hp1 hn1, ?_⟩
      · simp [readyToRun, hget1, hp1, assocFind_setT, h, setT_totalTicks]
      · simp [readyToRun, hget1, hp1, setT_l1, setT_l2, setT_l3, hIb]
      · subst hc
        simp [readyToRun, hget1, hp1, sjfTest_eq_true, setT_userTicks, setT_current,
          setT_l1, getT, setT, assocFind_assocUpdate, h]
    · refine ⟨?_, fun _ => ?_, fun hp2 => absurd hp1 (by omega), fun hn1 _ => absurd hp1 hn1, ?_⟩
      · simp [readyToRun, hget1, hp1, assocFind_setT, h, setT_totalTicks]
      · simp [readyToRun, hget1, hp1, setT_l1, setT_l2, setT_l3, hIb]
      · simp [readyToRun, hget1, hp1, sjfTest_eq_true, setT_userTicks, setT_current,
          setT_l1, getT, setT, assocFind_assocUpdate, h, hc]
  · by_cases hp2 : 50 ≤ t.priority ∧ t.priority ≤ 99
    · refine ⟨?_, fun hp1' => absurd hp1' hp1, fun _ => ?_, fun _ hn2 => absurd hp2 hn2, ?_⟩
      · simp [readyToRun, hget1, hp1, hp2, assocFind_setT, h, setT_totalTicks]
      · simp [readyToRun, hget1, hp1, hp2, setT_l1, setT_l2, setT_l3, hIp]
      · simp [readyToRun, hget1, hp1, hp2]
    · refine ⟨?_, fun hp1' => absurd hp1' hp1, fun hp2' => absurd hp2' hp2, fun _ _ => ?_, ?_⟩
      · simp [readyToRun, hget1, hp1, hp2, assocFind_setT, h, setT_totalTicks]
      · simp [readyToRun, hget1, hp1, hp2, setT_l1, setT_l2, setT_l3]
      · simp [readyToRun, hget1, hp1, hp2]


def t1Ex : Thread := ⟨1, 120, 50, 0, 0, .RUNNING⟩

def t2Ex : Thread := ⟨2, 120, 20, 0, 0, .JUST_CREATED⟩

def t3Ex : Thread := ⟨3, 120, 40, 0, 0, .JUST_CREATED⟩

def kEx : Kernel := ⟨[(1, t1Ex), (2, t2Ex), (3, t3Ex)], [], [], [], 1, 100, 10⟩

theorem readyToRun_spec_c2_witness :
    assocFind (readyToRun kEx 2).1.threads 2 =
      some { t2Ex with status := .READY, startWaitTime := 100 } ∧
    (readyToRun kEx 2).2 = true ∧ (readyToRun kEx 3).2 = false := by
  refine ⟨(readyToRun_spec_c2 kEx 2 t2Ex rfl).1, ?_, ?_⟩
  · exact ((readyToRun_spec_c2 kEx 2 t2Ex rfl).2.2.2.2).mpr
      ⟨by decide, by decide, by decide, by norm_num [kEx, t1Ex, t2Ex, getT, assocFind]⟩
  · rcases hb : (readyToRun kEx 3).2
    · rfl
    · exact absurd (((readyToRun_spec_c2 kEx 3 t3Ex rfl).2.2.2.2).mp hb)
        (by norm_num [kEx, t1Ex, t3Ex, getT, assocFind])


theorem burstLt_threads_eq (k k' : Kernel) (h : k'.threads = k.threads) (a b : Nat) :
    burstLt k' a b = burstLt k a b := by
  simp [burstLt, getT, h]

theorem priorityLt_threads_eq (k k' : Kernel) (h : k'.threads = k.threads) (a b : Nat) :
    priorityLt k' a b = priorityLt k a b := by
  simp [priorityLt, getT, h]

/-- C3: for a READY thread examined by `Scheduler::CheckAging` that has
waited at least 1500 ticks, the priority is bumped by 10 and clamped to 149
and `startWaitTime` is reset to the current tick; a new priority in
[100,110) moves the thread from L2 to L1 with the section-4.6 SJF-preemption
test re-applied against the running thread, a new priority in [50,60) moves
it from L3 to L2 with no preemption test, and any other new priority leaves
every queue unchanged; threads that waited less than 1500 ticks are left
entirely unchanged. -/
theorem checkAging_spec_c3 (k : Kernel) (tid : Nat) (t : Thread)
    (h : assocFind k.threads tid = some t) :
    (¬(t.status = .READY ∧ k.totalTicks - t.startWaitTime ≥ 1500) →
      checkAging k tid = (k, false, false)) ∧
    ((t.status = .READY ∧ k.totalTicks - t.startWaitTime ≥ 1500) →
      (assocFind (checkAging k tid).1.threads tid =
        some { t with priority := min (t.priority + 10) 149,
                      startWaitTime := k.totalTicks }) ∧
      ((100 ≤ min (t.priority + 10) 149 ∧ min (t.priority + 10) 149 < 110) →
        (checkAging k tid).1.l1 = insertQ (burstLt k) tid k.l1 ∧
        (checkAging k tid).1.l2 = (if tid ∈ k.l2 then k.l2.erase tid else k.l2) ∧
        (checkAging k tid).1.l3 = k.l3 ∧
        (checkAging k tid).2.1 = true ∧
        ((checkAging k tid).2.2 = true ↔
          (100 ≤ (getT k k.current).priority ∧ (getT k k.current).priority ≤ 149) ∧
          (getT k k.current).id ≠ t.id ∧
          ((t.burstTime : ℚ) <
            (1/2) * ((k.userTicks : ℚ) - ((getT k k.current).startTime : ℚ)) +
            (1/2) * ((getT k k.current).burstTime : ℚ)))) ∧
      ((50 ≤ min (t.priority + 10) 149 ∧ min (t.priority + 10) 149 < 60) →
        (checkAging k tid).1.l3 = k.l3.erase tid ∧
        (checkAging k tid).1.l2 =
          insertQ (priorityLt (setT k tid
            fun u => { u with priority := min (t.priority + 10) 149 })) tid k.l2 ∧
        (checkAging k tid).1.l1 = k.l1 ∧
        (checkAging k tid).2.1 = false ∧ (checkAging k tid).2.2 = false) ∧
      (¬(100 ≤ min (t.priority + 10) 149 ∧ min (t.priority + 10) 149 < 110) →
       ¬(50 ≤ min (t.priority + 10) 149 ∧ min (t.priority + 10) 149 < 60) →
        (checkAging k tid).1.l1 = k.l1 ∧ (checkAging k tid).1.l2 = k.l2 ∧
        (checkAging k tid).1.l3 = k.l3 ∧
        (checkAging k tid).2.1 = false ∧ (checkAging k tid).2.2 = false)) := by
  have hget0 : getT k tid = t := by simp [getT, h]
  constructor
  · intro hcond
    simp [checkAging, hget0, hcond]
  · intro hcond
    by_cases hclamp : t.priority + 10 ≤ 149
    · have hm : min (t.priority + 10) (149 : Int) = t.priority + 10 := min_eq_left hclamp
      have hif : (if t.priority + 10 > 149 then (149 : Int) else t.priority + 10)
          = t.priority + 10 := if_neg (by omega)
      simp only [hm]
      by_cases hb1 : 100 ≤ t.priority + 10 ∧ t.priority + 10 < 110
      · by_cases hl2 : tid ∈ k.l2
        · refine ⟨?_, fun _ => ⟨?_, ?_, ?_, ?_, ?_⟩,
            fun hb2 => absurd hb1 (by omega), fun hn1 _ => absurd hb1 hn1⟩
          · simp [checkAging, hget0, hif, hcond, hb1, hl2, assocFind_setT, h,
              setT_totalTicks, setT_l1, setT_l2, setT_l3]
          · simp [checkAging, hget0, hif, hcond, hb1, hl2, setT_l1, setT_l2, setT_l3]
            exact insertQ_congr _ _ _ _ (fun a b =>
              (burstLt_threads_eq
                (setT k tid fun u => { u with priority := t.priority + 10 })
                _ rfl a b).trans (burstLt_setT k tid
                  (fun u => { u with priority := t.priority + 10 })
                  (fun _ => rfl) a b))
          · simp [checkAging, hget0, hif, hcond, hb1, hl2, setT_l1, setT_l2, setT_l3]
          · simp [checkAging, hget0, hif, hcond, hb1, hl2, setT_l1, setT_l2, setT_l3]
          · simp [checkAging, hget0, hif, hcond, hb1, hl2]
          · by_cases hc : k.current = tid
            · subst hc
              simp [checkAging, hget0, hif, hcond, hb1, hl2, sjfTest_eq_true,
                setT_userTicks, setT_current, getT, setT, assocFind_assocUpdate, h]
            · simp [checkAging, hget0, hif, hcond, hb1, hl2, sjfTest_eq_true,
                setT_userTicks, setT_current, getT, setT, assocFind_assocUpdate, h, hc]
        · refine ⟨?_, fun _ => ⟨?_, ?_, ?_, ?_, ?_⟩,
            fun hb2 => absurd hb1 (by omega), fun hn1 _ => absurd hb1 hn1⟩
          · simp [checkAging, hget0, hif, hcond, hb1, hl2, assocFind_setT, h,
              setT_totalTicks, setT_l1, setT_l2, setT_l3]
          · simp [checkAging, hget0, hif, hcond, hb1, hl2, setT_l1, setT_l2, setT_l3]
            exact insertQ_congr _ _ _ _ (fun a b =>
              (burstLt_threads_eq
                (setT k tid fun u => { u with priority := t.priority + 10 })
                _ rfl a b).trans (burstLt_setT k tid
                  (fun u => { u with priority := t.priority + 10 })
                  (fun _ => rfl) a b))
          · simp [checkAging, hget0, hif, hcond, hb1, hl2, setT_l1, setT_l2, setT_l3]
          · simp [checkAging, hget0, hif, hcond, hb1, hl2, setT_l1, setT_l2, setT_l3]
          · simp [checkAging, hget0, hif, hcond, hb1, hl2]
          · by_cases hc : k.current = tid
            · subst hc
              simp [checkAging, hget0, hif, hcond, hb1, hl2, sjfTest_eq_true,
                setT_userTicks, setT_current, getT, setT, assocFind_assocUpdate, h]
            · simp [checkAging, hget0, hif, hcond, hb1, hl2, sjfTest_eq_true,
                setT_userTicks, setT_current, getT, setT, assocFind_assocUpdate, h, hc]
      · by_cases hb2 : 50 ≤ t.priority + 10 ∧ t.priority + 10 < 60
        · refine ⟨?_, fun hb1' => absurd hb1' hb1, fun _ => ⟨?_, ?_, ?_, ?_, ?_⟩,
            fun _ hn2 => absurd hb2 hn2⟩
          · simp [checkAging, hget0, hif, hcond, hb1, hb2, assocFind_setT, h,
              setT_totalTicks, setT_l1, setT_l2, setT_l3]
          · simp [checkAging, hget0, hif, hcond, hb1, hb2, setT_l1, setT_l2, setT_l3]
          · simp [checkAging, hget0, hif, hcond, hb1, hb2, setT_l1, setT_l2, setT_l3]
            exact insertQ_congr _ _ _ _ (priorityLt_threads_eq
              (setT k tid fun u => { u with priority := t.priority + 10 }) _ rfl)
          · simp [checkAging, hget0, hif, hcond, hb1, hb2, setT_l1, setT_l2, setT_l3]
          · simp [checkAging, hget0, hif, hcond, hb1, hb2]
          · simp [checkAging, hget0, hif, hcond, hb1, hb2]
        · refine ⟨?_, fun hb1' => absurd hb1' hb1, fun hb2' => absurd hb2' hb2,
            fun _ _ => ⟨?_, ?_, ?_, ?_, ?_⟩⟩
          · simp [checkAging, hget0, hif, hcond, hb1, hb2, assocFind_setT, h,
              setT_totalTicks, setT_l1, setT_l2, setT_l3]
          · simp [checkAging, hget0, hif, hcond, hb1, hb2, setT_l1, setT_l2, setT_l3]
          · simp [checkAging, hget0, hif, hcond, hb1, hb2, setT_l1, setT_l2, setT_l3]
          · simp [checkAging, hget0, hif, hcond, hb1, hb2, setT_l1, setT_l2, setT_l3]
          · simp [checkAging, hget0, hif, hcond, hb1, hb2]
          · simp [checkAging, hget0, hif, hcond, hb1, hb2]
    · have hm : min (t.priority + 10) (149 : Int) = 149 := min_eq_right (by omega)
      have hif : (if t.priority + 10 > 149 then (149 : Int) else t.priority + 10)
          = 149 := if_pos (by omega)
      have hd1 : ¬(100 ≤ (149 : Int) ∧ (149 : Int) < 110) := by decide
      have hd2 : ¬(50 ≤ (149 : Int) ∧ (149 : Int) < 60) := by decide
      simp only [hm]
      refine ⟨?_, fun hb1 => absurd hb1 hd1, fun hb2 => absurd hb2 hd2,
        fun _ _ => ⟨?_, ?_, ?_, ?_, ?_⟩⟩
      · simp [checkAging, hget0, hif, hcond, hd1, hd2, assocFind_setT, h,
          setT_totalTicks, setT_l1, setT_l2, setT_l3]
      · simp [checkAging, hget0, hif, hcond, hd1, hd2, setT_l1, setT_l2, setT_l3]
      · simp [checkAging, hget0, hif, hcond, hd1, hd2, setT_l1, setT_l2, setT_l3]
      · simp [checkAging, hget0, hif, hcond, hd1, hd2, setT_l1, setT_l2, setT_l3]
      · simp [checkAging, hget0, hif, hcond, hd1, hd2]
      · simp [checkAging, hget0, hif, hcond, hd1, hd2]


def t4Ex : Thread := ⟨4, 45, 0, 0, 0, .READY⟩

def kAgeEx : Kernel := ⟨[(1, t1Ex), (4, t4Ex)], [], [], [4], 1, 2000, 10⟩

theorem checkAging_spec_c3_witness :
    assocFind (checkAging kAgeEx 4).1.threads 4 =
      some { t4Ex with priority := 55, startWaitTime := 2000 } ∧
    (checkAging kAgeEx 4).1.l3 = [] ∧
    (checkAging kAgeEx 4).1.l2 = [4] := by
  have hs := checkAging_spec_c3 kAgeEx 4 t4Ex rfl
  have hc := hs.2 (by decide)
  refine ⟨?_, ?_, ?_⟩
  · have h1 := hc.1
    norm_num [t4Ex, kAgeEx] at h1 ⊢
    exact h1
  · have h2 := (hc.2.2.1 (by decide)).1
    norm_num [kAgeEx] at h2
    exact h2
  · have h3 := (hc.2.2.1 (by decide)).2.1
    rw [h3]
    rfl



theorem foldl_insertQ_head (lt : Nat → Nat → Bool) (ts : List Nat) :
    ∀ (b : Nat) (q : List Nat),
      (ts.foldl (fun acc x => insertQ lt x acc) (b :: q)).head? =
        some (ts.foldl (fun acc x => if lt x acc then x else acc) b) := by
  induction ts with
  | nil => intro b q; rfl
  | cons x ts ih =>
    intro b q
    simp only [List.foldl_cons]
    by_cases hcmp : lt x b
    · rw [show insertQ lt x (b :: q) = x :: b :: q from by simp [insertQ, hcmp]]
      rw [ih x (b :: q)]
      simp [hcmp]
    · rw [show insertQ lt x (b :: q) = b :: insertQ lt x q from by simp [insertQ, hcmp]]
      rw [ih b (insertQ lt x q)]
      simp [hcmp]

theorem buildQueue_head (lt : Nat → Nat → Bool) (t : Nat) (ts : List Nat) :
    (buildQueue lt (t :: ts)).head? = some (firstLeast lt t ts) := by
  unfold buildQueue firstLeast
  simp only [List.foldl_cons]
  rw [show insertQ lt t [] = [t] from rfl]
  exact foldl_insertQ_head lt ts t []

theorem firstLeast_spec (key : Nat → Int) (ts : List Nat) :
    ∀ b : Nat,
      (firstLeast (fun a c => decide (key a < key c)) b ts = b ∨
        key (firstLeast (fun a c => decide (key a < key c)) b ts) < key b) ∧
      (∀ x ∈ ts, key (firstLeast (fun a c => decide (key a < key c)) b ts) ≤ key x) ∧
      ((b :: ts).find? (fun x =>
          decide (key x ≤ key (firstLeast (fun a c => decide (key a < key c)) b ts)))
        = some (firstLeast (fun a c => decide (key a < key c)) b ts)) := by
  induction ts with
  | nil =>
    intro b
    refine ⟨Or.inl rfl, by simp, ?_⟩
    simp [firstLeast]
  | cons x ts ih =>
    intro b
    have hstep : firstLeast (fun a c => decide (key a < key c)) b (x :: ts)
        = firstLeast (fun a c => decide (key a < key c))
            (if key x < key b then x else b) ts := by
      unfold firstLeast
      simp only [List.foldl_cons]
      by_cases hxb : key x < key b <;> simp [hxb]
    obtain ⟨ihEq, ihMin, ihFind⟩ := ih (if key x < key b then x else b)
    have hleB : key (firstLeast (fun a c => decide (key a < key c))
        (if key x < key b then x else b) ts) ≤ key (if key x < key b then x else b) := by
      rcases ihEq with hEq | hLt
      · rw [hEq]
      · exact le_of_lt hLt
    rw [hstep]
    by_cases hxb : key x < key b
    · rw [if_pos hxb] at ihEq ihMin ihFind hleB ⊢
      refine ⟨Or.inr (lt_of_le_of_lt hleB hxb), ?_, ?_⟩
      · intro y hy
        rcases List.mem_cons.mp hy with hy | hy
        · subst hy; exact hleB
        · exact ihMin y hy
      · have hpredb : (decide (key b ≤ key (firstLeast
            (fun a c => decide (key a < key c)) x ts))) = false := by
          simp only [decide_eq_false_iff_not, not_le]
          exact lt_of_le_of_lt hleB hxb
        simp only [List.find?_cons, hpredb]
        exact ihFind
    · rw [if_neg hxb] at ihEq ihMin ihFind hleB ⊢
      have hbx : key b ≤ key x := not_lt.mp hxb
      refine ⟨ihEq, ?_, ?_⟩
      · intro y hy
        rcases List.mem_cons.mp hy with hy | hy
        · subst hy; exact le_trans hleB hbx
        · exact ihMin y hy
      · by_cases hpb : key b ≤ key (firstLeast (fun a c => decide (key a < key c)) b ts)
        · have hmb : firstLeast (fun a c => decide (key a < key c)) b ts = b := by
            rcases ihEq with hEq | hLt
            · exact hEq
            · exact absurd hpb (not_le.mpr hLt)
          simp [List.find?_cons, hmb]
        · have hpredb : (decide (key b ≤ key (firstLeast
              (fun a c => decide (key a < key c)) b ts))) = false := by
            simp only [decide_eq_false_iff_not]
            exact hpb
          have hfind_ts : ts.find? (fun x => decide (key x ≤ key (firstLeast
              (fun a c => decide (key a < key c)) b ts)))
              = some (firstLeast (fun a c => decide (key a < key c)) b ts) := by
            simp only [List.find?_cons, hpredb] at ihFind
            exact ihFind
          have hpredx : (decide (key x ≤ key (firstLeast
              (fun a c => decide (key a < key c)) b ts))) = false := by
            simp only [decide_eq_false_iff_not, not_le]
            calc key (firstLeast (fun a c => decide (key a < key c)) b ts)
                < key b := lt_of_not_le (fun hh => hpb hh)
              _ ≤ key x := hbx
          simp only [List.find?_cons, hpredb, hpredx]
          exact hfind_ts

theorem find?_congr_pred {α : Type} (p q : α → Bool) (l : List α)
    (h : ∀ x, p x = q x) : l.find? p = l.find? q := by
  induction l with
  | nil => rfl
  | cons x xs ih =>
    rw [List.find?_cons, List.find?_cons, h x, ih]

theorem burstLt_eq (k : Kernel) :
    burstLt k = fun a b => decide ((getT k a).burstTime < (getT k b).burstTime) := by
  funext a b
  unfold burstLt burstCmp
  by_cases h1 : (getT k a).burstTime = (getT k b).burstTime
  · simp [h1]
  · by_cases h2 : (getT k a).burstTime > (getT k b).burstTime <;>
      simp [h1, h2] <;> omega

theorem priorityLt_eq (k : Kernel) :
    priorityLt k = fun a b => decide (-(getT k a).priority < -(getT k b).priority) := by
  funext a b
  unfold priorityLt priorityCmp
  by_cases h1 : (getT k a).priority = (getT k b).priority
  · simp [h1]
  · by_cases h2 : (getT k a).priority > (getT k b).priority <;>
      simp [h1, h2] <;> omega

theorem foldl_append_eq (ts : List Nat) : ∀ q : List Nat,
    ts.foldl (fun acc x => acc ++ [x]) q = q ++ ts := by
  induction ts with
  | nil => intro q; simp
  | cons x ts ih => intro q; simp [ih]

/-- C6: `Scheduler::FindNextToRun` returns (and removes from its queue) the
front of L1 if nonempty, else of L2, else of L3, else null; and for queues
built by `SortedList::Insert` from empty, the front of L1 is the thread with
minimum burst estimate (earliest inserted on ties, witnessed by `find?`
returning it), the front of L2 is the thread with maximum priority (earliest
inserted on ties), and the front of L3 is the earliest appended thread. -/
theorem findNextToRun_spec_c6 :
    (∀ (k : Kernel) (h : Nat) (rest : List Nat), k.l1 = h :: rest →
      findNextToRun k = ({ k with l1 := rest }, some h)) ∧
    (∀ (k : Kernel) (h : Nat) (rest : List Nat), k.l1 = [] → k.l2 = h :: rest →
      findNextToRun k = ({ k with l2 := rest }, some h)) ∧
    (∀ (k : Kernel) (h : Nat) (rest : List Nat), k.l1 = [] → k.l2 = [] →
      k.l3 = h :: rest → findNextToRun k = ({ k with l3 := rest }, some h)) ∧
    (∀ k : Kernel, k.l1 = [] → k.l2 = [] → k.l3 = [] → findNextToRun k = (k, none)) ∧
    (∀ (k : Kernel) (t : Nat) (ts : List Nat),
      (buildQueue (burstLt k) (t :: ts)).head? = some (firstLeast (burstLt k) t ts) ∧
      (∀ x ∈ t :: ts, (getT k (firstLeast (burstLt k) t ts)).burstTime ≤
        (getT k x).burstTime) ∧
      (t :: ts).find? (fun x =>
          decide ((getT k x).burstTime ≤
            (getT k (firstLeast (burstLt k) t ts)).burstTime))
        = some (firstLeast (burstLt k) t ts)) ∧
    (∀ (k : Kernel) (t : Nat) (ts : List Nat),
      (buildQueue (priorityLt k) (t :: ts)).head? =
        some (firstLeast (priorityLt k) t ts) ∧
      (∀ x ∈ t :: ts, (getT k x).priority ≤
        (getT k (firstLeast (priorityLt k) t ts)).priority) ∧
      (t :: ts).find? (fun x =>
          decide ((getT k (firstLeast (priorityLt k) t ts)).priority ≤
            (getT k x).priority))
        = some (firstLeast (priorityLt k) t ts)) ∧
    (∀ (t : Nat) (ts : List Nat),
      ((t :: ts).foldl (fun q x => q ++ [x]) ([] : List Nat)).head? = some t) := by
  refine ⟨?_, ?_, ?_, ?_, ?_, ?_, ?_⟩
  · intro k h rest hl1
    simp [findNextToRun, hl1]
  · intro k h rest hl1 hl2
    simp [findNextToRun, hl1, hl2]
  · intro k h rest hl1 hl2 hl3
    simp [findNextToRun, hl1, hl2, hl3]
  · intro k hl1 hl2 hl3
    simp [findNextToRun, hl1, hl2, hl3]
  · intro k t ts
    rw [burstLt_eq k]
    obtain ⟨hEq, hMin, hFind⟩ :=
      firstLeast_spec (fun x => (getT k x).burstTime) ts t
    have hleB : (getT k (firstLeast
          (fun a c => decide ((getT k a).burstTime < (getT k c).burstTime)) t ts)).burstTime
        ≤ (getT k t).burstTime := by
      rcases hEq with hE | hL
      · rw [hE]
      · exact le_of_lt hL
    refine ⟨buildQueue_head _ t ts, ?_, hFind⟩
    intro x hx
    rcases List.mem_cons.mp hx with hx | hx
    · subst hx; exact hleB
    · exact hMin x hx
  · intro k t ts
    rw [priorityLt_eq k]
    obtain ⟨hEq, hMin, hFind⟩ :=
      firstLeast_spec (fun x => -(getT k x).priority) ts t
    have hleB : -(getT k (firstLeast
          (fun a c => decide (-(getT k a).priority < -(getT k c).priority)) t ts)).priority
        ≤ -(getT k t).priority := by
      rcases hEq with hE | hL
      · rw [hE]
      · exact le_of_lt hL
    refine ⟨buildQueue_head _ t ts, ?_, ?_⟩
    · intro x hx
      rcases List.mem_cons.mp hx with hx | hx
      · subst hx; exact neg_le_neg_iff.mp hleB
      · exact neg_le_neg_iff.mp (hMin x hx)
    · rw [find?_congr_pred _ (fun x => decide (-(getT k x).priority ≤
        -(getT k (firstLeast (fun a c =>
          decide (-(getT k a).priority < -(getT k c).priority)) t ts)).priority))
        _ (fun x => decide_eq_decide.mpr (by constructor <;> intro <;> omega))]
      exact hFind
  · intro t ts
    rw [foldl_append_eq]
    rfl


def kQEx : Kernel :=
  ⟨[(7, ⟨7, 120, 5, 0, 0, .READY⟩), (8, ⟨8, 120, 9, 0, 0, .READY⟩)],
    [7, 8], [], [], 7, 0, 0⟩

theorem findNextToRun_spec_c6_witness :
    findNextToRun kQEx = ({ kQEx with l1 := [8] }, some 7) ∧
    (buildQueue (burstLt kQEx) [8, 7]).head? = some (firstLeast (burstLt kQEx) 8 [7]) ∧
    firstLeast (burstLt kQEx) 8 [7] = 7 :=
  ⟨findNextToRun_spec_c6.1 kQEx 7 [8] rfl,
   (findNextToRun_spec_c6.2.2.2.2.1 kQEx 8 [7]).1,
   by decide⟩



/-- C8 (refuting instance, code bug): `FileSystem::Open` taken at the
open-file cap returns through the early `return NULL` at filesys.cc:292,
which skips the `delete curDirFile` cleanup: the intermediate directory
handle opened while traversing `/a/b` is leaked (its `opened` event has no
matching `deleted`); the same call below the cap releases it. -/
theorem open_cap_leaks_handle_c8 :
    FS.openEv { fsEx with openFileTableTop := 487 } "/a/b" = [.opened 2] ∧
    ¬ balanced (FS.openEv { fsEx with openFileTableTop := 487 } "/a/b") ∧
    FS.openEv fsEx "/a/b" = [.opened 2, .deleted 2] ∧
    balanced (FS.openEv fsEx "/a/b") := by
  refine ⟨by decide, fun hbal => absurd (hbal 2) (by decide), by decide, ?_⟩
  intro s
  by_cases h2 : s = 2
  · subst h2; decide
  · show countOpened (FS.openEv fsEx "/a/b") s = countDeleted (FS.openEv fsEx "/a/b") s
    rw [show FS.openEv fsEx "/a/b" = [.opened 2, .deleted 2] from by decide]
    simp [countOpened, countDeleted, List.filter, h2, Ne.symm h2]

theorem write_mem (h : Heap) (a : Nat) (s : String) (x : Nat) (hx : x ≠ a) :
    (h.write a s).mem x = h.mem x := by
  simp [Heap.write, hx]

theorem findSubDirH_mem (fs : FS) (h : Heap) (addr x : Nat) (hx : x ≠ addr) :
    ((findSubDirH fs h addr).2).mem x = h.mem x := by
  unfold findSubDirH
  rcases hfd : FindSubDirectory fs (h.read addr) with _ | r
  · by_cases ht : (tokenize (h.read addr)).isEmpty <;>
      simp [hfd, ht, Heap.write, hx]
  · simp [hfd, Heap.write, hx]

theorem findSubDirH_next (fs : FS) (h : Heap) (addr : Nat) :
    ((findSubDirH fs h addr).2).next = h.next := by
  unfold findSubDirH
  rcases hfd : FindSubDirectory fs (h.read addr) with _ | r
  · by_cases ht : (tokenize (h.read addr)).isEmpty <;> simp [hfd, ht, Heap.write]
  · simp [hfd, Heap.write]

theorem createH_heap (fs : FS) (h : Heap) (a sz : Nat) (d : Bool) :
    (FS.createH fs h a sz d).2 =
      (findSubDirH fs (Heap.write { h with next := h.next + 1 } h.next
        (Heap.read { h with next := h.next + 1 } a)) h.next).2 := by
  unfold FS.createH Heap.alloc
  rcases hr : findSubDirH fs (Heap.write { h with next := h.next + 1 } h.next
      (Heap.read { h with next := h.next + 1 } a)) h.next with ⟨r, h3⟩
  rcases r with _ | rr <;> simp [hr]

theorem openH_heap (fs : FS) (h : Heap) (a : Nat) :
    (FS.openH fs h a).2 =
      (findSubDirH fs (Heap.write { h with next := h.next + 1 } h.next
        (Heap.read { h with next := h.next + 1 } a)) h.next).2 := by
  unfold FS.openH Heap.alloc
  rcases hr : findSubDirH fs (Heap.write { h with next := h.next + 1 } h.next
      (Heap.read { h with next := h.next + 1 } a)) h.next with ⟨r, h3⟩
  rcases r with _ | rr <;> simp [hr]

theorem listH_heap (fs : FS) (h : Heap) (a : Nat) :
    (FS.listH fs h a).2 = h ∨
    (FS.listH fs h a).2 =
      (findSubDirH fs (Heap.write { h with next := h.next + 1 } h.next
        (Heap.read { h with next := h.next + 1 } a)) h.next).2 := by
  unfold FS.listH Heap.alloc
  by_cases hroot : h.read a = "/"
  · left; simp [hroot]
  · right
    rcases hr : findSubDirH fs (Heap.write { h with next := h.next + 1 } h.next
        (Heap.read { h with next := h.next + 1 } a)) h.next with ⟨r, h3⟩
    simp [hroot, hr]

theorem removeChildrenGoH_frame (rm : FS → Heap → Nat → Option ((FS × Bool) × Heap))
    (hrm : ∀ (fs : FS) (h : Heap) (a : Nat) (out : (FS × Bool) × Heap),
      rm fs h a = some out →
      h.next ≤ out.2.next ∧ ∀ x, x < h.next → out.2.mem x = h.mem x) :
    ∀ (es : List DirEntry) (fs : FS) (h : Heap) (tar : Nat) (p : String)
      (out : FS × Heap),
      removeChildrenGoH rm fs h tar p es = some out →
      h.next ≤ out.2.next ∧ ∀ x, x < h.next → x ≠ tar → out.2.mem x = h.mem x := by
  intro es
  induction es with
  | nil =>
    intro fs h tar p out hout
    rw [removeChildrenGoH] at hout
    cases hout
    exact ⟨le_refl _, fun _ _ _ => rfl⟩
  | cons e rest ih =>
    intro fs h tar p out hout
    by_cases he : e.inUse
    · rw [removeChildrenGoH, if_pos he] at hout
      simp only at hout
      rcases hrmx : rm fs (h.write tar (p ++ "/" ++ e.name)) tar
          with _ | ⟨⟨fs', b'⟩, h2⟩
      · rw [hrmx] at hout
        cases hout
      · rw [hrmx] at hout
        simp only at hout
        obtain ⟨hn1, hm1⟩ := hrm fs _ tar _ hrmx
        obtain ⟨hn2, hm2⟩ := ih fs' h2 tar p out hout
        simp only [Heap.write] at hn1 hm1
        refine ⟨by omega, ?_⟩
        intro x hx hxt
        rw [hm2 x (by omega) hxt, hm1 x (by omega)]
        simp [Heap.write, hxt]
    · rw [removeChildrenGoH, if_neg he] at hout
      exact ih fs h tar p out hout

theorem removeH_frame :
    ∀ (n : Nat) (fs : FS) (h : Heap) (r : Bool) (a : Nat)
      (out : (FS × Bool) × Heap),
      removeH n fs h r a = some out →
      h.next ≤ out.2.next ∧ ∀ x, x < h.next → out.2.mem x = h.mem x := by
  intro n
  induction n with
  | zero =>
    intro fs h r a out hout
    rw [removeH] at hout
    cases hout
  | succ n ih =>
    intro fs h r a out hout
    rw [removeH] at hout
    simp only [Heap.alloc] at hout
    rcases hfd : findSubDirH fs
        (Heap.write { h with next := h.next + 1 } h.next (h.read a)) h.next
        with ⟨rr, h3⟩
    rw [hfd] at hout
    simp only at hout
    have h3next : h3.next = h.next + 1 := by
      have h1 := findSubDirH_next fs
        (Heap.write { h with next := h.next + 1 } h.next (h.read a)) h.next
      rw [hfd] at h1
      exact h1
    have h3mem : ∀ x, x < h.next → h3.mem x = h.mem x := by
      intro x hx
      have h1 := findSubDirH_mem fs
        (Heap.write { h with next := h.next + 1 } h.next (h.read a)) h.next x
        (by omega)
      rw [hfd] at h1
      rw [h1, write_mem _ _ _ _ (by omega)]
    rcases rr with _ | ⟨curS, name⟩
    · cases hout
      exact ⟨by dsimp only; omega, by dsimp only; exact h3mem⟩
    · simp only at hout
      rcases hfind : (lookupDir fs curS).find? name with _ | sector
      · rw [hfind] at hout
        simp only at hout
        cases hout
        exact ⟨by dsimp only; omega, by dsimp only; exact h3mem⟩
      · rw [hfind] at hout
        simp only at hout
        by_cases hrec : ((lookupDir fs curS).isDirEntry name && r) = true
        · rw [if_pos hrec] at hout
          rcases hch : removeChildrenGoH (fun fs' h' a' => removeH n fs' h' true a') fs
              (Heap.write { h3 with next := h3.next + 1 } h3.next (h.read a))
              h3.next (h.read a) (lookupDir fs sector).table with _ | ⟨fsMid, hMid⟩
          · rw [hch] at hout
            cases hout
          · rw [hch] at hout
            simp only at hout
            cases hout
            obtain ⟨hnq, hmq⟩ := removeChildrenGoH_frame _
              (fun fs' h' a' out' hout' => ih fs' h' true a' out' hout') _ _ _ _ _ _ hch
            simp only [Heap.write] at hnq
            constructor
            · dsimp only
              omega
            · dsimp only
              intro x hx
              have hxw : x <
                  (Heap.write { h3 with next := h3.next + 1 } h3.next (h.read a)).next := by
                simp only [Heap.write]
                omega
              rw [hmq x hxw (by omega)]
              rw [write_mem _ _ _ _ (by omega)]
              exact h3mem x hx
        · rw [if_neg hrec] at hout
          simp only at hout
          cases hout
          exact ⟨by dsimp only; omega, by dsimp only; exact h3mem⟩

/-- C10: no public `FileSystem` operation mutates the caller's path buffer:
`Create`, `Open`, `Remove` and `List` copy the argument into a fresh local
before the destructive `strtok` tokenization (`Remove` builds child paths in
a further local), so the string at the caller's address is unchanged when
the call returns. -/
theorem path_arg_immutable_c10 :
    (∀ (fs : FS) (h : Heap) (a sz : Nat) (d : Bool), a < h.next →
       ((FS.createH fs h a sz d).2).read a = h.read a) ∧
    (∀ (fs : FS) (h : Heap) (a : Nat), a < h.next →
       ((FS.openH fs h a).2).read a = h.read a) ∧
    (∀ (fs : FS) (h : Heap) (a : Nat), a < h.next →
       ((FS.listH fs h a).2).read a = h.read a) ∧
    (∀ (n : Nat) (fs : FS) (h : Heap) (r : Bool) (a : Nat)
       (out : (FS × Bool) × Heap), a < h.next → removeH n fs h r a = some out →
       (out.2).read a = h.read a) := by
  refine ⟨?_, ?_, ?_, ?_⟩
  · intro fs h a sz d ha
    rw [createH_heap]
    show (findSubDirH fs (Heap.write { h with next := h.next + 1 } h.next
      (Heap.read { h with next := h.next + 1 } a)) h.next).2.mem a = h.mem a
    rw [findSubDirH_mem _ _ _ _ (by omega), write_mem _ _ _ _ (by omega)]
  · intro fs h a ha
    rw [openH_heap]
    show (findSubDirH fs (Heap.write { h with next := h.next + 1 } h.next
      (Heap.read { h with next := h.next + 1 } a)) h.next).2.mem a = h.mem a
    rw [findSubDirH_mem _ _ _ _ (by omega), write_mem _ _ _ _ (by omega)]
  · intro fs h a ha
    rcases listH_heap fs h a with hl | hl
    · rw [hl]
    · rw [hl]
      show (findSubDirH fs (Heap.write { h with next := h.next + 1 } h.next
        (Heap.read { h with next := h.next + 1 } a)) h.next).2.mem a = h.mem a
      rw [findSubDirH_mem _ _ _ _ (by omega), write_mem _ _ _ _ (by omega)]
  · intro n fs h r a out ha hout
    exact (removeH_frame n fs h r a out hout).2 a ha

def hEx : Heap := ⟨fun _ => "/a/b", 1⟩

theorem path_arg_immutable_c10_witness :
    ((FS.createH fsEx hEx 0 100 false).2).read 0 = hEx.read 0 ∧
    ((FS.openH fsEx hEx 0).2).read 0 = hEx.read 0 ∧
    ((FS.listH fsEx hEx 0).2).read 0 = hEx.read 0 ∧
    ((removeH 3 fsEx hEx true 0).elim "" (fun out => (out.2).read 0)) = hEx.read 0 := by
  refine ⟨path_arg_immutable_c10.1 fsEx hEx 0 100 false (by decide),
    path_arg_immutable_c10.2.1 fsEx hEx 0 (by decide),
    path_arg_immutable_c10.2.2.1 fsEx hEx 0 (by decide), ?_⟩
  rcases hrm : removeH 3 fsEx hEx true 0 with _ | out
  · exfalso
    have hs : (removeH 3 fsEx hEx true 0).isSome = true := by decide
    rw [hrm] at hs
    cases hs
  · simp only [Option.elim]
    exact path_arg_immutable_c10.2.2.2 3 fsEx hEx true 0 out (by decide) hrm


/-! Support for the Remove correctness claim: directory states reachable
during a (recursive) `Remove` differ from the initial ones only by some
`inUse` flags turned off, and under the spec's name-uniqueness invariant
(section 3) lookups in such states either agree with the initial state or
fail. -/

def entryLe (e e₀ : DirEntry) : Prop :=
  e = e₀ ∨ e = { e₀ with inUse := false }

def dirTableLe : List DirEntry → List DirEntry → Prop
  | [], [] => True
  | e :: r, e₀ :: r₀ => entryLe e e₀ ∧ dirTableLe r r₀
  | _, _ => False

def dirLe (d d₀ : Directory) : Prop := dirTableLe d.table d₀.table

def fsDirLe (fs fs₀ : FS) : Prop := ∀ s, dirLe (lookupDir fs s) (lookupDir fs₀ s)

/-- The spec's directory invariant (section 3): among in-use entries, names
are unique. -/
def noDupT (t : List DirEntry) : Prop :=
  List.Pairwise (fun a b => a.inUse = true → b.inUse = true → a.name ≠ b.name) t

def FSwf (fs : FS) : Prop := ∀ s, noDupT (lookupDir fs s).table

theorem entryLe_refl (e : DirEntry) : entryLe e e := Or.inl rfl

theorem entryLe_trans (a b c : DirEntry) (h1 : entryLe a b) (h2 : entryLe b c) :
    entryLe a c := by
  rcases h1 with h1 | h1 <;> rcases h2 with h2 | h2 <;> subst h1 <;> subst h2
  · exact Or.inl rfl
  · exact Or.inr rfl
  · exact Or.inr rfl
  · exact Or.inr rfl

theorem dirTableLe_refl (t : List DirEntry) : dirTableLe t t := by
  induction t with
  | nil => trivial
  | cons e r ih => exact ⟨entryLe_refl e, ih⟩

theorem dirTableLe_trans (a b c : List DirEntry)
    (h1 : dirTableLe a b) (h2 : dirTableLe b c) : dirTableLe a c := by
  induction a generalizing b c with
  | nil =>
    cases b with
    | nil => cases c with
      | nil => trivial
      | cons _ _ => exact absurd h2 (by simp [dirTableLe])
    | cons _ _ => exact absurd h1 (by simp [dirTableLe])
  | cons e r ih =>
    cases b with
    | nil => exact absurd h1 (by simp [dirTableLe])
    | cons e' r' =>
      cases c with
      | nil => exact absurd h2 (by simp [dirTableLe])
      | cons e'' r'' =>
        exact ⟨entryLe_trans e e' e'' h1.1 h2.1, ih r' r'' h1.2 h2.2⟩

theorem dirLe_refl (d : Directory) : dirLe d d := dirTableLe_refl d.table

theorem fsDirLe_refl (fs : FS) : fsDirLe fs fs := fun _ => dirLe_refl _

theorem fsDirLe_trans (a b c : FS) (h1 : fsDirLe a b) (h2 : fsDirLe b c) :
    fsDirLe a c := fun s => dirTableLe_trans _ _ _ (h1 s) (h2 s)

theorem removeAux_dirTableLe (name : String) (t : List DirEntry) :
    dirTableLe (Directory.removeAux name t) t := by
  induction t with
  | nil => trivial
  | cons e r ih =>
    by_cases hm : (e.inUse && e.name == name) = true
    · rw [Directory.removeAux, if_pos hm]
      exact ⟨Or.inr rfl, dirTableLe_refl r⟩
    · rw [Directory.removeAux, if_neg hm]
      exact ⟨entryLe_refl e, ih⟩

theorem removeName_dirLe (d : Directory) (name : String) :
    dirLe (d.removeName name) d := removeAux_dirTableLe name d.table

theorem findPred_flagged (name : String) (e : DirEntry) :
    ¬ findPred name { e with inUse := false } = true := by
  simp [findPred]

theorem findPred_facts (name : String) (e : DirEntry)
    (h : findPred name e = true) : e.inUse = true ∧ e.name = name := by
  unfold findPred at h
  simp only [Bool.and_eq_true, beq_iff_eq] at h
  exact h

/-- Lookups in a flag-reduced table: equal to the original lookup, or `none`
— given name uniqueness in the original. -/
theorem find?_dirTableLe (name : String) :
    ∀ (t t₀ : List DirEntry), dirTableLe t t₀ → noDupT t₀ →
      List.find? (findPred name) t = List.find? (findPred name) t₀ ∨
      List.find? (findPred name) t = none := by
  intro t
  induction t with
  | nil =>
    intro t₀ hle _
    cases t₀ with
    | nil => exact Or.inl rfl
    | cons _ _ => exact absurd hle (by simp [dirTableLe])
  | cons e r ih =>
    intro t₀ hle hnd
    cases t₀ with
    | nil => exact absurd hle (by simp [dirTableLe])
    | cons e₀ r₀ =>
      obtain ⟨hee, hrr⟩ := hle
      have hndr : noDupT r₀ := (List.pairwise_cons.mp hnd).2
      have hhead := (List.pairwise_cons.mp hnd).1
      rcases hee with hee | hee
      · subst hee
        by_cases hpe : findPred name e = true
        · rw [@List.find?_cons_of_pos DirEntry (findPred name) e r hpe,
            @List.find?_cons_of_pos DirEntry (findPred name) e r₀ hpe]
          exact Or.inl rfl
        · rw [@List.find?_cons_of_neg DirEntry (findPred name) e r hpe,
            @List.find?_cons_of_neg DirEntry (findPred name) e r₀ hpe]
          exact ih r₀ hrr hndr
      · subst hee
        rw [@List.find?_cons_of_neg DirEntry (findPred name) _ r
          (findPred_flagged name e₀)]
        by_cases hpe₀ : findPred name e₀ = true
        · obtain ⟨he₀u, he₀n⟩ := findPred_facts name e₀ hpe₀
          have hr₀none : List.find? (findPred name) r₀ = none := by
            rw [List.find?_eq_none]
            intro b hb hpb
            obtain ⟨hbu, hbn⟩ := findPred_facts name b hpb
            exact (hhead b hb he₀u hbu) (he₀n.trans hbn.symm)
          rcases ih r₀ hrr hndr with hih | hih
          · exact Or.inr (hih.trans hr₀none)
          · exact Or.inr hih
        · rw [@List.find?_cons_of_neg DirEntry (findPred name) e₀ r₀ hpe₀]
          exact ih r₀ hrr hndr

/-- After `Directory::Remove(name)`, the name is gone — given uniqueness. -/
theorem find?_removeAux (name : String) :
    ∀ t : List DirEntry, noDupT t →
      List.find? (findPred name) (Directory.removeAux name t) = none := by
  intro t
  induction t with
  | nil => intro _; rfl
  | cons e r ih =>
    intro hnd
    have hndr : noDupT r := (List.pairwise_cons.mp hnd).2
    have hhead := (List.pairwise_cons.mp hnd).1
    by_cases hm : (e.inUse && e.name == name) = true
    · rw [Directory.removeAux, if_pos hm]
      rw [@List.find?_cons_of_neg DirEntry (findPred name) _ r
        (findPred_flagged name e)]
      rw [List.find?_eq_none]
      intro b hb hpb
      obtain ⟨heu, hen⟩ := findPred_facts name e hm
      obtain ⟨hbu, hbn⟩ := findPred_facts name b hpb
      exact (hhead b hb heu hbu) (hen.trans hbn.symm)
    · rw [Directory.removeAux, if_neg hm,
        @List.find?_cons_of_neg DirEntry (findPred name) e (Directory.removeAux name r) hm,
        ih hndr]

theorem find?_removeName (d : Directory) (name : String) (hnd : noDupT d.table) :
    (d.removeName name).find? name = none := by
  unfold Directory.find? Directory.findEntry Directory.removeName
  rw [find?_removeAux name d.table hnd]
  rfl

theorem find?_of_dirLe (d d₀ : Directory) (name : String)
    (hle : dirLe d d₀) (hnd : noDupT d₀.table) :
    d.find? name = d₀.find? name ∨ d.find? name = none := by
  unfold Directory.find? Directory.findEntry
  rcases find?_dirTableLe name d.table d₀.table hle hnd with h | h
  · rw [h]; exact Or.inl rfl
  · rw [h]; exact Or.inr rfl



theorem lookupHdr_congr (fs₁ fs₂ : FS) (h : fs₁.hdrs = fs₂.hdrs) (s : Nat) :
    lookupHdr fs₁ s = lookupHdr fs₂ s := by
  simp [lookupHdr, h]

theorem removeChildrenGo_inv (rm : FS → String → Option (FS × Bool))
    (hrm : ∀ (fs : FS) (p : String) (out : FS × Bool),
      rm fs p = some out → fsDirLe out.1 fs ∧ out.1.hdrs = fs.hdrs) :
    ∀ (es : List DirEntry) (fs : FS) (p : String) (fs' : FS),
      removeChildrenGo rm fs p es = some fs' →
      fsDirLe fs' fs ∧ fs'.hdrs = fs.hdrs := by
  intro es
  induction es with
  | nil =>
    intro fs p fs' h
    rw [removeChildrenGo] at h
    cases h
    exact ⟨fsDirLe_refl _, rfl⟩
  | cons e rest ih =>
    intro fs p fs' h
    by_cases he : e.inUse
    · rw [removeChildrenGo, if_pos he] at h
      rcases hrmx : rm fs (p ++ "/" ++ e.name) with _ | ⟨fs1, b1⟩
      · rw [hrmx] at h
        cases h
      · rw [hrmx] at h
        simp only at h
        obtain ⟨hle1, hh1⟩ := hrm fs _ _ hrmx
        obtain ⟨hle2, hh2⟩ := ih fs1 p fs' h
        exact ⟨fsDirLe_trans _ _ _ hle2 hle1, hh2.trans hh1⟩
    · rw [removeChildrenGo, if_neg he] at h
      exact ih fs p fs' h

theorem removeF_inv :
    ∀ (n : Nat) (fs : FS) (r : Bool) (p : String) (out : FS × Bool),
      removeF n fs r p = some out → fsDirLe out.1 fs ∧ out.1.hdrs = fs.hdrs := by
  intro n
  induction n with
  | zero =>
    intro fs r p out h
    rw [removeF] at h
    cases h
  | succ n ih =>
    intro fs r p out h
    rw [removeF] at h
    rcases hfd : FindSubDirectory fs p with _ | ⟨curS, name⟩
    · rw [hfd] at h
      cases h
      exact ⟨fsDirLe_refl _, rfl⟩
    · rw [hfd] at h
      simp only at h
      rcases hfind : (lookupDir fs curS).find? name with _ | sector
      · rw [hfind] at h
        simp only at h
        cases h
        exact ⟨fsDirLe_refl _, rfl⟩
      · rw [hfind] at h
        simp only at h
        by_cases hrec : ((lookupDir fs curS).isDirEntry name && r) = true
        · rw [if_pos hrec] at h
          rcases hch : removeChildrenGo (fun fs' p' => removeF n fs' true p') fs p
              (lookupDir fs sector).table with _ | fsMid
          · rw [hch] at h
            cases h
          · rw [hch] at h
            simp only at h
            cases h
            obtain ⟨hleM, hhM⟩ := removeChildrenGo_inv _
              (fun fs' p' out' hout' => ih fs' true p' out' hout') _ _ _ _ hch
            constructor
            · intro s
              show dirLe ((assocFind (assocSet fsMid.dirs curS
                ((lookupDir fs curS).removeName name)) s).getD ⟨[]⟩) (lookupDir fs s)
              rw [assocFind_assocSet]
              by_cases hs : s = curS
              · rw [if_pos hs]
                subst hs
                exact removeName_dirLe (lookupDir fs s) name
              · rw [if_neg hs]
                exact hleM s
            · exact hhM
        · rw [if_neg hrec] at h
          simp only at h
          cases h
          constructor
          · intro s
            show dirLe ((assocFind (assocSet fs.dirs curS
              ((lookupDir fs curS).removeName name)) s).getD ⟨[]⟩) (lookupDir fs s)
            rw [assocFind_assocSet]
            by_cases hs : s = curS
            · rw [if_pos hs]
              subst hs
              exact removeName_dirLe (lookupDir fs s) name
            · rw [if_neg hs]
              exact dirLe_refl _
          · rfl

theorem removeF_true_shape (n : Nat) (fs : FS) (r : Bool) (p : String) (fs' : FS)
    (h : removeF n fs r p = some (fs', true)) :
    ∃ curS name sector fsMid,
      FindSubDirectory fs p = some (curS, name) ∧
      (lookupDir fs curS).find? name = some sector ∧
      fsDirLe fsMid fs ∧ fsMid.hdrs = fs.hdrs ∧
      fs' = { fsMid with
                freeMapDisk := ((lookupHdr fsMid sector).deallocate
                  fsMid.freeMapDisk).clear sector,
                dirs := assocSet fsMid.dirs curS
                  ((lookupDir fs curS).removeName name) } := by
  cases n with
  | zero =>
    rw [removeF] at h
    cases h
  | succ n =>
    rw [removeF] at h
    rcases hfd : FindSubDirectory fs p with _ | ⟨curS, name⟩
    · rw [hfd] at h
      simp only at h
      cases h
    · rw [hfd] at h
      simp only at h
      rcases hfind : (lookupDir fs curS).find? name with _ | sector
      · rw [hfind] at h
        simp only at h
        cases h
      · rw [hfind] at h
        simp only at h
        by_cases hrec : ((lookupDir fs curS).isDirEntry name && r) = true
        · rw [if_pos hrec] at h
          rcases hch : removeChildrenGo (fun fs' p' => removeF n fs' true p') fs p
              (lookupDir fs sector).table with _ | fsMid
          · rw [hch] at h
            cases h
          · rw [hch] at h
            simp only at h
            obtain ⟨hleM, hhM⟩ := removeChildrenGo_inv _
              (fun fs1 p1 out1 hout1 => removeF_inv n fs1 true p1 out1 hout1)
              _ _ _ _ hch
            refine ⟨curS, name, sector, fsMid, rfl, hfind, hleM, hhM, ?_⟩
            cases h
            rfl
        · rw [if_neg hrec] at h
          simp only at h
          refine ⟨curS, name, sector, fs, rfl, hfind, fsDirLe_refl fs, rfl, ?_⟩
          cases h
          rfl

theorem fsdLoop_pres (fs' fs : FS) (hle : fsDirLe fs' fs) (hwf : FSwf fs) :
    ∀ (rest : List String) (cur : Nat) (cut : String),
      fsdLoop fs' cur cut rest = fsdLoop fs cur cut rest ∨
      fsdLoop fs' cur cut rest = none := by
  intro rest
  induction rest with
  | nil => intro cur cut; left; rfl
  | cons nextCut rest' ih =>
    intro cur cut
    rw [fsdLoop, fsdLoop]
    rcases find?_of_dirLe _ _ cut (hle cur) (hwf cur) with heq | hnone
    · rw [heq]
      rcases hf2 : (lookupDir fs cur).find? cut with _ | s
      · left; rfl
      · exact ih s nextCut
    · rw [hnone]
      right
      rfl

theorem FindSubDirectory_pres (fs' fs : FS) (hle : fsDirLe fs' fs) (hwf : FSwf fs)
    (p : String) :
    FindSubDirectory fs' p = FindSubDirectory fs p ∨
    FindSubDirectory fs' p = none := by
  rw [FindSubDirectory, FindSubDirectory]
  rcases htok : tokenize p with _ | ⟨cut, rest⟩
  · left; rfl
  · exact fsdLoop_pres fs' fs hle hwf rest DirectorySector cut



/-- C4: Remove(recursive, path) returns false exactly when the parent path does
not resolve or the terminal name is absent from the parent directory; under the
spec's name-uniqueness directory invariant, after any successful Remove(path),
Open(path) returns null and the removed file's header sector and all its data
sectors are free in the bitmap; and concretely, recursive removal of the
directory "/a" (children "/a/b", "/a/c") succeeds, frees sectors 2-7, and
leaves "/a", "/a/b", "/a/c" unopenable. -/
theorem remove_spec_c4 :
    (∀ (n : Nat) (fs : FS) (r : Bool) (p : String) (out : FS × Bool),
      removeF n fs r p = some out →
      (out.2 = false ↔ FindSubDirectory fs p = none ∨
        ∃ curS name, FindSubDirectory fs p = some (curS, name) ∧
          (lookupDir fs curS).find? name = none)) ∧
    (∀ (n : Nat) (fs : FS) (r : Bool) (p : String) (fs' : FS),
      FSwf fs → removeF n fs r p = some (fs', true) →
      (FS.open fs' p).2 = none ∧
      ∃ curS name sector,
        FindSubDirectory fs p = some (curS, name) ∧
        (lookupDir fs curS).find? name = some sector ∧
        fs'.freeMapDisk.test sector = false ∧
        ∀ s ∈ (lookupHdr fs sector).dataSectors, fs'.freeMapDisk.test s = false) ∧
    ((removeF 5 fsEx true "/a").map (fun out =>
        (out.2, out.1.freeMapDisk,
         (FS.open out.1 "/a/b").2, (FS.open out.1 "/a/c").2, (FS.open out.1 "/a").2))
      = some (true, [true, true, false, false, false, false, false, false, false, false],
          none, none, none)) := by
  refine ⟨?_, ?_, by decide⟩
  · intro n fs r p out h
    cases n with
    | zero =>
      rw [removeF] at h
      cases h
    | succ n =>
      rw [removeF] at h
      rcases hfd : FindSubDirectory fs p with _ | ⟨curS, name⟩
      · rw [hfd] at h
        cases h
        simp [hfd]
      · rw [hfd] at h
        simp only at h
        rcases hfind : (lookupDir fs curS).find? name with _ | sector
        · rw [hfind] at h
          simp only at h
          cases h
          exact ⟨fun _ => Or.inr ⟨curS, name, rfl, hfind⟩, fun _ => rfl⟩
        · rw [hfind] at h
          simp only at h
          have hout2 : out.2 = true := by
            by_cases hrec : ((lookupDir fs curS).isDirEntry name && r) = true
            · rw [if_pos hrec] at h
              rcases hch : removeChildrenGo (fun fs' p' => removeF n fs' true p') fs p
                  (lookupDir fs sector).table with _ | fsMid
              · rw [hch] at h
                cases h
              · rw [hch] at h
                simp only at h
                cases h
                rfl
            · rw [if_neg hrec] at h
              simp only at h
              cases h
              rfl
          rw [hout2]
          constructor
          · intro hfalse
            cases hfalse
          · intro hcontra
            rcases hcontra with hnone | ⟨curS', name', hfd', hfind'⟩
            · cases hnone
            · simp only [Option.some.injEq, Prod.mk.injEq] at hfd'
              obtain ⟨h1, h2⟩ := hfd'
              subst h1
              subst h2
              rw [hfind] at hfind'
              cases hfind'
  · intro n fs r p fs' hwf h
    obtain ⟨curS, name, sector, fsMid, hfd, hfind, hleM, hhM, hfs'⟩ :=
      removeF_true_shape n fs r p fs' h
    have hle' : fsDirLe fs' fs := by
      intro s
      rw [hfs']
      show dirLe ((assocFind (assocSet fsMid.dirs curS
        ((lookupDir fs curS).removeName name)) s).getD ⟨[]⟩) (lookupDir fs s)
      rw [assocFind_assocSet]
      by_cases hs : s = curS
      · rw [if_pos hs]
        subst hs
        exact removeName_dirLe _ name
      · rw [if_neg hs]
        exact hleM s
    have hdirs' : lookupDir fs' curS = (lookupDir fs curS).removeName name := by
      rw [hfs']
      show ((assocFind (assocSet fsMid.dirs curS
        ((lookupDir fs curS).removeName name)) curS).getD ⟨[]⟩) = _
      rw [assocFind_assocSet, if_pos rfl]
      rfl
    constructor
    · rcases FindSubDirectory_pres fs' fs hle' hwf p with hpres | hpres
      · have hfd' : FindSubDirectory fs' p = some (curS, name) := hpres.trans hfd
        have hfind' : (lookupDir fs' curS).find? name = none := by
          rw [hdirs']
          exact find?_removeName _ name (hwf curS)
        simp [FS.open, hfd', hfind']
      · simp [FS.open, hpres]
    · refine ⟨curS, name, sector, hfd, hfind, ?_, ?_⟩
      · rw [hfs']
        exact test_clear_self _ _
      · intro s hs
        rw [hfs']
        show Bitmap.test (((lookupHdr fsMid sector).deallocate
          fsMid.freeMapDisk).clear sector) s = false
        apply test_clear_false
        apply deallocate_test_mem
        rw [lookupHdr_congr fsMid fs hhM sector]
        exact hs

def fsExRemoved : FS := ((removeF 5 fsEx true "/a").map (·.1)).getD fsEx

theorem remove_spec_c4_witness :
    FSwf fsEx ∧ removeF 5 fsEx true "/a" = some (fsExRemoved, true) ∧
    (FS.open fsExRemoved "/a").2 = none ∧
    (FS.open fsExRemoved "/a/b").2 = none := by
  have hwf : FSwf fsEx := by
    intro s
    by_cases h1 : s = 1
    · subst h1
      show List.Pairwise (fun a b => a.inUse = true → b.inUse = true → a.name ≠ b.name)
        (lookupDir fsEx 1).table
      decide
    · by_cases h2 : s = 2
      · subst h2
        show List.Pairwise (fun a b => a.inUse = true → b.inUse = true → a.name ≠ b.name)
          (lookupDir fsEx 2).table
        decide
      · have hempty : lookupDir fsEx s = ⟨[]⟩ := by
          simp [lookupDir, fsEx, assocFind, Ne.symm h1, Ne.symm h2]
        rw [hempty]
        exact List.Pairwise.nil
  have heq : removeF 5 fsEx true "/a" = some (fsExRemoved, true) := by decide
  refine ⟨hwf, heq, (remove_spec_c4.2.1 5 fsEx true "/a" fsExRemoved hwf heq).1, ?_⟩
  decide

end Nachos
